import Mathlib

/-!
Verification development for the ODS v9.2 shortcut-persistence and
modal-lifecycle subsystem.

The definitions below are a shallow embedding of two source files:

* `src/modal/ods.modal.js` — class `ModalState` (fields `activeModalId`,
  `activeModuleId`, `openedAt`, `previousModalId`, `isTransitioning`, methods
  `open`, `close`, `isActive`);
* `src/core/storage/shortcut-store.js` — class `ShortcutDataStore`
  (`load`, `save`, `getShortcut`, `getEnabledShortcuts`, `toggle`,
  `updateLabel`, `remove`, `clear`, `generateDefaultLabel`,
  `validateShortcuts`, `validateLabel`, `reindexPositions`, `importData`).

Modelling conventions:

* JavaScript values flowing through `JSON.parse` / `validateShortcuts` are
  modelled by the inductive type `Jsv`; a missing property (`undefined`) is
  modelled by `Option Jsv` being `none`.  JSON numbers are restricted to
  integers (`Int`), which covers every numeral appearing in the program and
  its specification; fractional or hexadecimal numerals are outside the
  scope of the embedding.
* Strings are manipulated through `List Char`; `trim` / `substring` /
  `toUpperCase` are modelled character-wise, which agrees with the
  JavaScript behaviour on the code-unit level for the (ASCII) data the
  program manipulates.
* `localStorage` is modelled by a `StoredVal` cell plus a `writeOk` flag:
  `setItem` succeeds and replaces the cell when `writeOk` is true and
  throws (quota exceeded) when it is false.  The stored string is
  represented by its parse: `StoredVal.jsval v` stands for a string that
  `JSON.parse` turns into `v` (as `JSON.stringify` output always is),
  `StoredVal.unparseable` for a non-empty string on which `JSON.parse`
  throws, `StoredVal.emptyString` for `""` and `StoredVal.absent` for a
  missing key (`getItem` returns `null`).
* `Date.now()` / `new Date().toISOString()` are modelled by explicit `now`
  parameters (one per top-level operation; the sub-millisecond differences
  between several clock reads inside one synchronous call are not
  observable by any property considered here).
* Each method of the JavaScript classes becomes a function from the state
  to (result × new state); in-place mutations of the cached array
  (`push`, `splice`, field assignment) are made explicit as cache updates
  performed before the internal `save` call, matching reference semantics.
-/

/-- JavaScript/JSON value (numbers restricted to integers). -/
inductive Jsv where
  | jnull
  | jbool (b : Bool)
  | jnum (n : Int)
  | jstr (s : String)
  | jarr (elems : List Jsv)
  | jobj (fields : List (String × Jsv))
deriving Repr

namespace Jsv

mutual

/-- Decidable equality (written by hand: the automatic derivation does not
support this nested inductive). -/
def decEq : (a b : Jsv) → Decidable (a = b)
  | jnull, jnull => isTrue rfl
  | jnull, jbool _ => isFalse fun h => Jsv.noConfusion h
  | jnull, jnum _ => isFalse fun h => Jsv.noConfusion h
  | jnull, jstr _ => isFalse fun h => Jsv.noConfusion h
  | jnull, jarr _ => isFalse fun h => Jsv.noConfusion h
  | jnull, jobj _ => isFalse fun h => Jsv.noConfusion h
  | jbool _, jnull => isFalse fun h => Jsv.noConfusion h
  | jbool x, jbool y => decidable_of_iff (x = y) (by simp)
  | jbool _, jnum _ => isFalse fun h => Jsv.noConfusion h
  | jbool _, jstr _ => isFalse fun h => Jsv.noConfusion h
  | jbool _, jarr _ => isFalse fun h => Jsv.noConfusion h
  | jbool _, jobj _ => isFalse fun h => Jsv.noConfusion h
  | jnum _, jnull => isFalse fun h => Jsv.noConfusion h
  | jnum _, jbool _ => isFalse fun h => Jsv.noConfusion h
  | jnum x, jnum y => decidable_of_iff (x = y) (by simp)
  | jnum _, jstr _ => isFalse fun h => Jsv.noConfusion h
  | jnum _, jarr _ => isFalse fun h => Jsv.noConfusion h
  | jnum _, jobj _ => isFalse fun h => Jsv.noConfusion h
  | jstr _, jnull => isFalse fun h => Jsv.noConfusion h
  | jstr _, jbool _ => isFalse fun h => Jsv.noConfusion h
  | jstr _, jnum _ => isFalse fun h => Jsv.noConfusion h
  | jstr x, jstr y => decidable_of_iff (x = y) (by simp)
  | jstr _, jarr _ => isFalse fun h => Jsv.noConfusion h
  | jstr _, jobj _ => isFalse fun h => Jsv.noConfusion h
  | jarr _, jnull => isFalse fun h => Jsv.noConfusion h
  | jarr _, jbool _ => isFalse fun h => Jsv.noConfusion h
  | jarr _, jnum _ => isFalse fun h => Jsv.noConfusion h
  | jarr _, jstr _ => isFalse fun h => Jsv.noConfusion h
  | jarr xs, jarr ys =>
    letI := decEqList xs ys
    decidable_of_iff (xs = ys) (by simp)
  | jarr _, jobj _ => isFalse fun h => Jsv.noConfusion h
  | jobj _, jnull => isFalse fun h => Jsv.noConfusion h
  | jobj _, jbool _ => isFalse fun h => Jsv.noConfusion h
  | jobj _, jnum _ => isFalse fun h => Jsv.noConfusion h
  | jobj _, jstr _ => isFalse fun h => Jsv.noConfusion h
  | jobj _, jarr _ => isFalse fun h => Jsv.noConfusion h
  | jobj xs, jobj ys =>
    letI := decEqFields xs ys
    decidable_of_iff (xs = ys) (by simp)

/-- Decidable equality for value lists. -/
def decEqList : (xs ys : List Jsv) → Decidable (xs = ys)
  | [], [] => isTrue rfl
  | [], _ :: _ => isFalse fun h => List.noConfusion h
  | _ :: _, [] => isFalse fun h => List.noConfusion h
  | x :: xs, y :: ys =>
    letI := decEq x y
    letI := decEqList xs ys
    decidable_of_iff (x = y ∧ xs = ys) (by simp)

/-- Decidable equality for field lists. -/
def decEqFields : (xs ys : List (String × Jsv)) → Decidable (xs = ys)
  | [], [] => isTrue rfl
  | [], _ :: _ => isFalse fun h => List.noConfusion h
  | _ :: _, [] => isFalse fun h => List.noConfusion h
  | (k, v) :: xs, (k', v') :: ys =>
    letI := decEq v v'
    letI := decEqFields xs ys
    decidable_of_iff (k = k' ∧ v = v' ∧ xs = ys) (by simp [and_assoc])

end

instance : DecidableEq Jsv := decEq

/-- JavaScript truthiness of a defined value: `null`, `false`, `0` and `""`
are falsy; every array and object is truthy. -/
def truthy : Jsv → Bool
  | jnull => false
  | jbool b => b
  | jnum n => n != 0
  | jstr s => s != ""
  | jarr _ => true
  | jobj _ => true

/-- Truthiness of a possibly-`undefined` value (`none` = `undefined`). -/
def optTruthy : Option Jsv → Bool
  | none => false
  | some v => v.truthy

/-- `typeof v === 'object'` (true for `null`, arrays and plain objects). -/
def isObjectType : Jsv → Bool
  | jnull => true
  | jarr _ => true
  | jobj _ => true
  | _ => false

/-- Property lookup `v[key]`: yields a value only on plain objects holding
the key; on every other value the access evaluates to `undefined` (the
program only reads properties behind truthiness / `?.` guards, so getters
on primitive wrappers never matter). -/
def getField : Jsv → String → Option Jsv
  | jobj fields, key => lookupField fields key
  | _, _ => none
where
  /-- First binding wins; the objects built by this program never contain
  duplicate keys, and `JSON.parse` output is modelled already de-duplicated. -/
  lookupField : List (String × Jsv) → String → Option Jsv
    | [], _ => none
    | (k, v) :: rest, key => if k = key then some v else lookupField rest key

end Jsv

/-- JavaScript whitespace test, restricted to the character classes the
program's data contains (ASCII whitespace). -/
def jsWs (c : Char) : Bool :=
  c.isWhitespace

/-- `String.prototype.trim` on a character list. -/
def trimChars (l : List Char) : List Char :=
  ((l.dropWhile jsWs).reverse.dropWhile jsWs).reverse

/-- `String.prototype.trim`. -/
def jsTrim (s : String) : String :=
  String.mk (trimChars s.toList)

/-- Maximal runs of non-whitespace characters, accumulator-style: models
`trimmed.split(/\s+/)` (JavaScript yields `[""]` when `trimmed` is empty,
but the only consumer maps each word to its first character and joins, and
`""` contributes nothing to that join, so the empty-input corner is
represented by the empty word list). -/
def wsWordsAux : List Char → List Char → List (List Char)
  | [], acc => if acc.isEmpty then [] else [acc.reverse]
  | c :: cs, acc =>
    if jsWs c then
      if acc.isEmpty then wsWordsAux cs [] else acc.reverse :: wsWordsAux cs []
    else
      wsWordsAux cs (c :: acc)

/-- Whitespace-separated words of a string. -/
def wsWords (s : String) : List (List Char) :=
  wsWordsAux s.toList []

mutual

/-- `String(v)` — JavaScript string conversion of the values representable
in this embedding (arrays join their elements' conversions with `","`,
`null`/`undefined` elements contributing `""`; plain objects convert to
`"[object Object]"`). -/
def jsToString : Jsv → String
  | Jsv.jnull => "null"
  | Jsv.jbool b => if b then "true" else "false"
  | Jsv.jnum n => toString n
  | Jsv.jstr s => s
  | Jsv.jarr elems => String.intercalate "," (jsToStringList elems)
  | Jsv.jobj _ => "[object Object]"

/-- Array elements: `null` (and `undefined`) render as `""` inside `join`. -/
def jsToStringList : List Jsv → List String
  | [] => []
  | Jsv.jnull :: rest => "" :: jsToStringList rest
  | v :: rest => jsToString v :: jsToStringList rest

end

/-- String conversion of one array element (`null` renders empty). -/
def jsToStringElem : Jsv → String
  | Jsv.jnull => ""
  | v => jsToString v

/-- `Number(s)` for a string, as far as representable with integer numbers:
whitespace-trimmed empty string is `0`, an optionally signed run of decimal
digits is its value, anything else is `NaN` (returned as `none`).
Fractional, hexadecimal and exponent numerals are outside the embedding's
numeric scope. -/
def jsStringToNumber (s : String) : Option Int :=
  let t := trimChars s.toList
  match t with
  | [] => some 0
  | '+' :: ds => digitsVal ds
  | '-' :: ds => (digitsVal ds).map (fun n => -n)
  | ds => digitsVal ds
where
  digitsVal (ds : List Char) : Option Int :=
    if ds.isEmpty then none
    else if ds.all Char.isDigit then
      some (Int.ofNat (ds.foldl (fun acc c => acc * 10 + (c.toNat - '0'.toNat)) 0))
    else none

/-- `Number(v) || 0` for a possibly-`undefined` value: `NaN` maps to `0`
through the `|| 0`, and so do `null`, `false` and `""`.  A one-element
array converts through the string of its element, a longer array through a
comma-joined string (never numeric), an object through `"[object Object]"`
(`NaN`). -/
def jsNumberOrZero : Option Jsv → Int
  | none => 0
  | some Jsv.jnull => 0
  | some (Jsv.jbool _) => 0
  | some (Jsv.jnum n) => n
  | some (Jsv.jstr s) => ((jsStringToNumber s).getD 0)
  | some (Jsv.jarr []) => 0
  | some (Jsv.jarr [x]) => ((jsStringToNumber (jsToStringElem x)).getD 0)
  | some (Jsv.jarr (_ :: _ :: _)) => 0
  | some (Jsv.jobj _) => 0

/-!  ## ModalState (`src/modal/ods.modal.js`, lines 13–63)  -/

/-- Runtime state of the modal system.  Timestamps are `Date.now()` values
(integer milliseconds). -/
structure ModalState where
  activeModalId : Option String
  activeModuleId : Option String
  openedAt : Option Int
  previousModalId : Option String
  isTransitioning : Bool
deriving DecidableEq, Repr

namespace ModalState

/-- The constructor: every field `null` / `false`. -/
def init : ModalState :=
  { activeModalId := none, activeModuleId := none, openedAt := none,
    previousModalId := none, isTransitioning := false }

/-- Truthiness of a nullable string field (`null` and `""` are falsy). -/
def strFieldTruthy : Option String → Bool
  | none => false
  | some s => s != ""

/-- `open(modalId, moduleId)`: guarded by
`if (this.isTransitioning || this.activeModalId) return false;` — note the
guard tests JavaScript truthiness of `activeModalId`, not `!== null`.
On acceptance, `previousModalId` receives the prior `activeModalId` (which
just passed the falsy test), the active fields and `openedAt` are set, and
`isTransitioning` is reset to `false` before returning `true`. -/
def openModal (s : ModalState) (modalId moduleId : String) (now : Int) :
    Bool × ModalState :=
  if s.isTransitioning || strFieldTruthy s.activeModalId then
    (false, s)
  else
    (true,
      { activeModalId := some modalId,
        activeModuleId := some moduleId,
        openedAt := some now,
        previousModalId := s.activeModalId,
        isTransitioning := false })

/-- `close()`: `const duration = this.openedAt ? Date.now() - this.openedAt : 0`
(truthiness again: a `0` timestamp counts as "not open"), then the three
session fields are cleared.  Returns the duration. -/
def close (s : ModalState) (now : Int) : Int × ModalState :=
  (match s.openedAt with
   | none => 0
   | some t => if t = 0 then 0 else now - t,
   { s with activeModalId := none, activeModuleId := none, openedAt := none })

/-- `isActive()`: `this.activeModalId !== null`. -/
def isActive (s : ModalState) : Bool :=
  s.activeModalId.isSome

/-- One external call on the tracker. -/
inductive Event where
  | eopen (modalId moduleId : String) (now : Int)
  | eclose (now : Int)
deriving DecidableEq, Repr

/-- Apply one event, discarding the returned value. -/
def stepEvent (s : ModalState) : Event → ModalState
  | Event.eopen modalId moduleId now => (s.openModal modalId moduleId now).2
  | Event.eclose now => (s.close now).2

/-- State after a sequence of calls, starting from the constructor. -/
def runEvents (evs : List Event) : ModalState :=
  evs.foldl stepEvent init

/-- Events whose open calls use non-empty (truthy) modal ids and positive
clock readings — every call a browser host actually delivers (`Date.now()`
is strictly positive). -/
def goodEvent : Event → Prop
  | Event.eopen modalId _ now => modalId ≠ "" ∧ 0 < now
  | Event.eclose _ => True

instance : DecidablePred goodEvent := by
  intro e; cases e <;> simp [goodEvent] <;> infer_instance

end ModalState

/-!  ## ShortcutDataStore (`src/core/storage/shortcut-store.js`)  -/

/-- One validated shortcut record, i.e. the exact shape produced by
`validateShortcuts`: `label` is always a string (`String(...)` coercion),
`enabled`/`visible` booleans, `position` a number; `id`, `action.type`,
`action.target`, `created_at` and `updated_at` are kept as whatever truthy
value survived the `||`-defaulting, so they stay general `Jsv`. -/
structure Shortcut where
  id : Jsv
  label : String
  enabled : Bool
  actionType : Jsv
  target : Jsv
  position : Int
  visible : Bool
  created_at : Jsv
  updated_at : Jsv
deriving DecidableEq, Repr

/-- The object a record presents to `validateShortcuts` /
`JSON.stringify` (shape of the literals built in `toggle` and
`validateShortcuts`). -/
def encodeShortcut (r : Shortcut) : Jsv :=
  Jsv.jobj [("id", r.id), ("label", Jsv.jstr r.label),
            ("enabled", Jsv.jbool r.enabled),
            ("action", Jsv.jobj [("type", r.actionType), ("target", r.target)]),
            ("position", Jsv.jnum r.position), ("visible", Jsv.jbool r.visible),
            ("created_at", r.created_at), ("updated_at", r.updated_at)]

/-- A record array, as the value handed to `save` / stored by
`JSON.stringify`. -/
def encodeShortcuts (rs : List Shortcut) : Jsv :=
  Jsv.jarr (rs.map encodeShortcut)

/-- Strict equality `v === t` between a value and a string (the
`s.action?.target === modalId` comparisons). -/
def jsvEqString (v : Jsv) (t : String) : Bool :=
  match v with
  | Jsv.jstr s => s == t
  | _ => false

/-- `a || b` for a possibly-`undefined` `a`. -/
def jsOr (v : Option Jsv) (dflt : Jsv) : Jsv :=
  match v with
  | some x => if x.truthy then x else dflt
  | none => dflt

/-- `s.action?.target`. -/
def actionTarget (s : Jsv) : Option Jsv :=
  (s.getField "action").bind (fun a => a.getField "target")

namespace ShortcutDataStore

/-- `validateLabel(label)` (source lines 201–211): falsy → `"XX"`;
otherwise `String(label).trim()`, `"XX"` if the trim is empty, first 20
characters if longer than 20. -/
def validateLabel (label : Option Jsv) : String :=
  match label with
  | none => "XX"
  | some v =>
    if !v.truthy then "XX"
    else
      let cleaned := trimChars (jsToString v).toList
      if cleaned.isEmpty then "XX"
      else if cleaned.length > 20 then String.mk (cleaned.take 20)
      else String.mk cleaned

/-- `generateDefaultLabel(title)` (source lines 163–169): falsy title →
`"XX"`; otherwise split the trimmed title on whitespace runs, join the
words' first characters, uppercase, keep the first 3 characters, `"XX"`
if that is empty.  (JavaScript's `"".split(/\s+/)` yields `[""]`, whose
missing first character contributes nothing to the join — represented
here by the empty word list of `wsWords`.) -/
def generateDefaultLabel (title : String) : String :=
  if title = "" then "XX"
  else
    let words := wsWords (jsTrim title)
    let letters := (words.filterMap List.head?).map Char.toUpper
    let res := letters.take 3
    if res.isEmpty then "XX" else String.mk res

/-- The filter of `validateShortcuts`:
`s && typeof s === 'object' && s.action?.target`. -/
def validKeep (s : Jsv) : Bool :=
  s.truthy && s.isObjectType && Jsv.optTruthy (actionTarget s)

/-- The `.map` body of `validateShortcuts`, applied to entries that passed
`validKeep` (so `actionTarget` is present and truthy there; the `.getD`
default is never reached on that path). -/
def coerceRecord (now : String) (s : Jsv) : Shortcut :=
  let target := (actionTarget s).getD Jsv.jnull
  { id := jsOr (s.getField "id") (Jsv.jstr ("shortcut-" ++ jsToString target)),
    label := validateLabel (s.getField "label"),
    enabled := Jsv.optTruthy (s.getField "enabled"),
    actionType := jsOr ((s.getField "action").bind (fun a => a.getField "type"))
      (Jsv.jstr "modal"),
    target := target,
    position := jsNumberOrZero (s.getField "position"),
    visible := (match s.getField "visible" with
                | some (Jsv.jbool false) => false
                | _ => true),
    created_at := jsOr (s.getField "created_at") (Jsv.jstr now),
    updated_at := jsOr (s.getField "updated_at") (Jsv.jstr now) }

/-- `validateShortcuts(shortcuts)` (source lines 174–196): non-arrays map
to `[]`; arrays are filtered by `validKeep` and coerced entry-wise.
`now` is the single `new Date().toISOString()` read. -/
def validateShortcuts (now : String) (v : Jsv) : List Shortcut :=
  match v with
  | Jsv.jarr xs => (xs.filter validKeep).map (coerceRecord now)
  | _ => []

/-- Ascending-position comparison (the comparator
`(a, b) => a.position - b.position`). -/
def posLe (a b : Shortcut) : Prop :=
  a.position ≤ b.position

instance : DecidableRel posLe := fun a b => Int.decLe a.position b.position

instance : IsTotal Shortcut posLe := ⟨fun a b => Int.le_total a.position b.position⟩

instance : IsTrans Shortcut posLe := ⟨fun _ _ _ hab hbc => Int.le_trans hab hbc⟩

/-- The `.map((shortcut, index) => ({...shortcut, position: index}))` pass. -/
def assignPositions : Nat → List Shortcut → List Shortcut
  | _, [] => []
  | i, s :: rest => { s with position := (i : Int) } :: assignPositions (i + 1) rest

/-- `reindexPositions(shortcuts)` (source lines 216–223): sort ascending by
`position` — `Array.prototype.sort` is stable (ES2019), and a stable
ascending sort is computed by `List.insertionSort` with `≤` on the key —
then overwrite each `position` with its index.  (The in-place sort only
ever mutates the freshly built `validated` array inside `save`.) -/
def reindexPositions (l : List Shortcut) : List Shortcut :=
  assignPositions 0 (l.insertionSort posLe)

/-- The persistent state of one `ShortcutDataStore` instance together with
its `localStorage` key: the in-memory `cache` (`null` before the first
`load`), the stored value under `STORAGE_KEY`, and whether the backend
currently accepts writes (`setItem` throws, e.g. quota exceeded, exactly
when `writeOk` is false). -/
inductive StoredVal where
  | absent
  | emptyString
  | unparseable
  | jsval (v : Jsv)
deriving DecidableEq, Repr

structure Store where
  cache : Option (List Shortcut)
  stored : StoredVal
  writeOk : Bool
deriving DecidableEq, Repr

/-- A store as the constructor leaves it (`this.cache = null`), over an
arbitrary pre-existing storage content. -/
def Store.init (stored : StoredVal) (writeOk : Bool) : Store :=
  { cache := none, stored := stored, writeOk := writeOk }

/-- `save(shortcuts)` (source lines 46–60): validate, reindex, `setItem`
the stringified result (its parse being exactly `encodeShortcuts`), set
the cache, dispatch the change event (external), return `true`.  If
`setItem` throws, the `catch` returns `false` with cache and storage
untouched. -/
def save (now : String) (data : Jsv) (st : Store) : Bool × Store :=
  let validated := validateShortcuts now data
  let reindexed := reindexPositions validated
  if st.writeOk then
    (true, { st with stored := StoredVal.jsval (encodeShortcuts reindexed),
                     cache := some reindexed })
  else
    (false, st)

/-- The internal `this.save(shortcuts)` calls, whose argument is an actual
record array. -/
def saveRecords (now : String) (rs : List Shortcut) (st : Store) : Bool × Store :=
  save now (encodeShortcuts rs) st

/-- `load()` (source lines 17–40): cached value if present; otherwise read
the stored value — missing/empty (`!rawData`) gives `[]`; a parse failure
is caught, caches `[]` and re-persists via `save([])`; a parsed value is
replaced by `[]` unless it is an array, then validated and cached. -/
def load (now : String) (st : Store) : List Shortcut × Store :=
  match st.cache with
  | some c => (c, st)
  | none =>
    match st.stored with
    | StoredVal.absent => ([], { st with cache := some [] })
    | StoredVal.emptyString => ([], { st with cache := some [] })
    | StoredVal.unparseable =>
      let st1 := { st with cache := some ([] : List Shortcut) }
      let st2 := (save now (Jsv.jarr []) st1).2
      (st2.cache.getD [], st2)
    | StoredVal.jsval v =>
      let shortcuts := match v with
        | Jsv.jarr xs => Jsv.jarr xs
        | _ => Jsv.jarr []
      let validated := validateShortcuts now shortcuts
      (validated, { st with cache := some validated })

/-- `getShortcut(modalId)` (source lines 65–68). -/
def getShortcut (now : String) (modalId : String) (st : Store) :
    Option Shortcut × Store :=
  let p := load now st
  (p.1.find? (fun s => jsvEqString s.target modalId), p.2)

/-- `getEnabledShortcuts()` (source lines 73–76). -/
def getEnabledShortcuts (now : String) (st : Store) : List Shortcut × Store :=
  let p := load now st
  (p.1.filter (fun s => s.enabled), p.2)

/-- In-place mutation of the first record found for `modalId`
(`shortcut.enabled = enabled; shortcut.updated_at = now`). -/
def setEnabledFirst (modalId : String) (enabled : Bool) (now : String) :
    List Shortcut → List Shortcut
  | [] => []
  | s :: rest =>
    if jsvEqString s.target modalId then
      { s with enabled := enabled, updated_at := Jsv.jstr now } :: rest
    else
      s :: setEnabledFirst modalId enabled now rest

/-- `toggle(modalId, enabled, modalTitle)` (source lines 82–109).  `find`
locates the first record with matching `action?.target`; if absent and
`enabled` is set, a fresh record is pushed onto the cached array;
if present, its `enabled`/`updated_at` fields are assigned in place.
Either way the (possibly mutated) array goes through `save`. -/
def toggle (now : String) (modalId : String) (enabled : Bool)
    (modalTitle : String) (st : Store) : Bool × Store :=
  let p := load now st
  let shortcuts := p.1
  let st1 := p.2
  match shortcuts.find? (fun s => jsvEqString s.target modalId) with
  | none =>
    if enabled then
      let newShortcut : Shortcut :=
        { id := Jsv.jstr ("shortcut-" ++ modalId),
          label := generateDefaultLabel modalTitle,
          enabled := true,
          actionType := Jsv.jstr "modal",
          target := Jsv.jstr modalId,
          position := (shortcuts.length : Int),
          visible := true,
          created_at := Jsv.jstr now,
          updated_at := Jsv.jstr now }
      let arr := shortcuts ++ [newShortcut]
      saveRecords now arr { st1 with cache := some arr }
    else
      saveRecords now shortcuts st1
  | some _ =>
    let arr := setEnabledFirst modalId enabled now shortcuts
    saveRecords now arr { st1 with cache := some arr }

/-- In-place label assignment on the first record found for `modalId`. -/
def setLabelFirst (modalId : String) (newLabel : String) (now : String) :
    List Shortcut → List Shortcut
  | [] => []
  | s :: rest =>
    if jsvEqString s.target modalId then
      { s with label := newLabel, updated_at := Jsv.jstr now } :: rest
    else
      s :: setLabelFirst modalId newLabel now rest

/-- The inline sanitisation of `updateLabel`:
`(label || '').trim()`, `"XX"` if empty, first 20 characters if longer
than 20 (`label` is a string at this API, so `label || ''` is the
identity on it: `"" || ''` is still `''`). -/
def sanitizeLabel (label : String) : String :=
  let cleaned := trimChars label.toList
  if cleaned.isEmpty then "XX"
  else if cleaned.length > 20 then String.mk (cleaned.take 20)
  else String.mk cleaned

/-- `updateLabel(modalId, label)` (source lines 115–135): `false` when no
record matches (before any persistence); otherwise assign the sanitised
label and `updated_at` in place and `save` the array. -/
def updateLabel (now : String) (modalId : String) (label : String)
    (st : Store) : Bool × Store :=
  let p := load now st
  let shortcuts := p.1
  let st1 := p.2
  match shortcuts.find? (fun s => jsvEqString s.target modalId) with
  | none => (false, st1)
  | some _ =>
    let arr := setLabelFirst modalId (sanitizeLabel label) now shortcuts
    saveRecords now arr { st1 with cache := some arr }

/-- `remove(modalId)` (source lines 140–150): `false` when no record
matches; otherwise `splice` the record out of the cached array and
`save`. -/
def remove (now : String) (modalId : String) (st : Store) : Bool × Store :=
  let p := load now st
  let shortcuts := p.1
  let st1 := p.2
  match shortcuts.findIdx? (fun s => jsvEqString s.target modalId) with
  | none => (false, st1)
  | some i =>
    let arr := shortcuts.eraseIdx i
    saveRecords now arr { st1 with cache := some arr }

/-- `clear()` (source lines 155–157). -/
def clear (now : String) (st : Store) : Bool × Store :=
  save now (Jsv.jarr []) st

/-- `importData(jsonString)` (source lines 251–259).  The argument is the
result of `JSON.parse(jsonString)` — `none` when the parse throws, in
which case the `catch` returns `false` without touching any state;
otherwise the parsed value goes straight into `save`. -/
def importData (now : String) (parsed : Option Jsv) (st : Store) :
    Bool × Store :=
  match parsed with
  | none => (false, st)
  | some v => save now v st

end ShortcutDataStore

/-!  ## Definitions used by the claim statements  -/

/-- `Array.isArray`. -/
def Jsv.isArr : Jsv → Bool
  | Jsv.jarr _ => true
  | _ => false

/-- A truthy-string test (the shape the data-model table requires of the
string-valued fields). -/
def isNonemptyStr : Jsv → Bool
  | Jsv.jstr s => s != ""
  | _ => false

/-- A well-formed `ShortcutRecord` in the sense of the specification's
data-model table, with each field in its stored shape: non-empty string
`id`, `label` of 1–20 characters in sanitised (trimmed) form, non-empty
string `action.type` / `action.target`, integer `position ≥ 0`, non-empty
string timestamps. -/
def wellFormedShortcut (r : Shortcut) : Bool :=
  isNonemptyStr r.id &&
  (trimChars r.label.toList == r.label.toList) &&
  (r.label != "") && (r.label.length ≤ 20) &&
  isNonemptyStr r.actionType &&
  isNonemptyStr r.target &&
  (0 ≤ r.position) &&
  isNonemptyStr r.created_at &&
  isNonemptyStr r.updated_at

/-- A record with its `position` blanked, for "equal up to reindexed
positions" comparisons. -/
def erasePosition (r : Shortcut) : Shortcut :=
  { r with position := 0 }

/-- A record with `enabled` and `updated_at` blanked, for "only `enabled`
and `updated_at` change" comparisons. -/
def eraseEnabledUpdated (r : Shortcut) : Shortcut :=
  { r with enabled := false, updated_at := Jsv.jnull }

/-- A record with `label` and `updated_at` blanked, for "only `label` and
`updated_at` change" comparisons. -/
def eraseLabelUpdated (r : Shortcut) : Shortcut :=
  { r with label := "", updated_at := Jsv.jnull }

/-- The default-label derivation as the specification words it: first
character of each whitespace-separated word of the title, uppercased,
truncated to 3 characters, `"XX"` when that is empty.  (Spec wording;
compared against the source's `generateDefaultLabel`.) -/
def specDerivedLabel (title : String) : String :=
  let initials := ((wsWords (jsTrim title)).filterMap List.head?).map Char.toUpper
  if (initials.take 3).isEmpty then "XX" else String.mk (initials.take 3)

/-- No two records share an `action.target`. -/
def distinctTargets (l : List Shortcut) : Prop :=
  l.Pairwise (fun a b => a.target ≠ b.target)

instance distinctTargets.instDecidable (l : List Shortcut) :
    Decidable (distinctTargets l) :=
  List.instDecidablePairwise l

/-- Target-uniqueness invariant over a whole store: the cached collection
(when loaded) and the persisted collection (when it is a record array
written by `save`) have pairwise distinct targets. -/
def StoreTargetsOk (st : ShortcutDataStore.Store) : Prop :=
  (∀ c, st.cache = some c → distinctTargets c) ∧
  (∀ v, st.stored = ShortcutDataStore.StoredVal.jsval v →
    ∃ rs, v = encodeShortcuts rs ∧ distinctTargets rs)

/-- One registry call (the operations of the public contract other than
`importData`/`exportData`), with its clock reading. -/
inductive RegOp where
  | opToggle (now modalId : String) (enabled : Bool) (title : String)
  | opUpdateLabel (now modalId label : String)
  | opRemove (now modalId : String)
  | opClear (now : String)
  | opLoad (now : String)
deriving DecidableEq, Repr

/-- Apply one registry call, discarding its returned value. -/
def applyRegOp (st : ShortcutDataStore.Store) : RegOp → ShortcutDataStore.Store
  | RegOp.opToggle now modalId enabled title =>
    (ShortcutDataStore.toggle now modalId enabled title st).2
  | RegOp.opUpdateLabel now modalId label =>
    (ShortcutDataStore.updateLabel now modalId label st).2
  | RegOp.opRemove now modalId => (ShortcutDataStore.remove now modalId st).2
  | RegOp.opClear now => (ShortcutDataStore.clear now st).2
  | RegOp.opLoad now => (ShortcutDataStore.load now st).2

/-- State after a sequence of registry calls. -/
def runRegOps (st : ShortcutDataStore.Store) (ops : List RegOp) :
    ShortcutDataStore.Store :=
  ops.foldl applyRegOp st

/-- Invariant of the modal tracker under well-behaved inputs: never caught
mid-transition, no stored previous id, any active id non-empty, any open
timestamp positive. -/
def ModalState.GoodInv (s : ModalState) : Prop :=
  s.isTransitioning = false ∧
  s.previousModalId = none ∧
  (∀ m, s.activeModalId = some m → m ≠ "") ∧
  (∀ t, s.openedAt = some t → 0 < t)

/-!  ## Theorems  -/

namespace ModalState

theorem goodInv_init : GoodInv init := by
  refine ⟨rfl, rfl, ?_, ?_⟩ <;> intro x h <;> simp [init] at h

theorem goodInv_step (s : ModalState) (e : Event) (hs : s.GoodInv)
    (he : goodEvent e) : (stepEvent s e).GoodInv := by
  obtain ⟨h1, h2, h3, h4⟩ := hs
  cases e with
  | eopen modalId moduleId now =>
    obtain ⟨hm, hn⟩ := he
    by_cases hact : strFieldTruthy s.activeModalId = true
    · have : stepEvent s (Event.eopen modalId moduleId now) = s := by
        simp [stepEvent, openModal, h1, hact]
      rw [this]; exact ⟨h1, h2, h3, h4⟩
    · have hnone : s.activeModalId = none := by
        cases hA : s.activeModalId with
        | none => rfl
        | some m =>
          exfalso
          apply hact
          simp [strFieldTruthy, hA]
          exact h3 m hA
      have : stepEvent s (Event.eopen modalId moduleId now) =
          { activeModalId := some modalId, activeModuleId := some moduleId,
            openedAt := some now, previousModalId := s.activeModalId,
            isTransitioning := false } := by
        simp [stepEvent, openModal, h1, hact]
      rw [this, hnone]
      refine ⟨rfl, rfl, ?_, ?_⟩
      · intro m hm'
        cases hm' ; exact hm
      · intro t ht
        cases ht ; exact hn
  | eclose now =>
    refine ⟨h1, h2, ?_, ?_⟩ <;> intro x h <;> simp [stepEvent, close] at h

theorem goodInv_foldl : ∀ (evs : List Event) (s : ModalState), s.GoodInv →
    (∀ e ∈ evs, goodEvent e) → (evs.foldl stepEvent s).GoodInv
  | [], s, hs, _ => hs
  | e :: rest, s, hs, hg => by
    simp only [List.foldl_cons]
    exact goodInv_foldl rest _ (goodInv_step s e hs (hg e (by simp)))
      (fun e' he' => hg e' (by simp [he']))

theorem goodInv_runEvents (evs : List Event) (h : ∀ e ∈ evs, goodEvent e) :
    (runEvents evs).GoodInv :=
  goodInv_foldl evs init goodInv_init h

/-- The `previousModalId` field can only ever receive a falsy value: the
guard in `open` admits exactly the states whose `activeModalId` is `null`
or `""`, and that is the value copied into `previousModalId`. -/
theorem prev_falsy_foldl : ∀ (evs : List Event) (s : ModalState),
    (s.previousModalId = none ∨ s.previousModalId = some "") →
    ((evs.foldl stepEvent s).previousModalId = none ∨
     (evs.foldl stepEvent s).previousModalId = some "")
  | [], _, hs => hs
  | e :: rest, s, hs => by
    simp only [List.foldl_cons]
    apply prev_falsy_foldl rest
    cases e with
    | eopen modalId moduleId now =>
      by_cases hg : (s.isTransitioning || strFieldTruthy s.activeModalId) = true
      · simpa [stepEvent, openModal, hg] using hs
      · have hact : strFieldTruthy s.activeModalId = false := by
          simp at hg ; exact hg.2
        have : s.activeModalId = none ∨ s.activeModalId = some "" := by
          cases hA : s.activeModalId with
          | none => exact Or.inl rfl
          | some m =>
            right
            simp [strFieldTruthy, hA] at hact
            rw [hact]
        simpa [stepEvent, openModal, hg] using this
    | eclose now => simpa [stepEvent, close] using hs

end ModalState

/-- Claim C1 (amended): over every `ModalState` reached by a sequence of
`open`/`close` calls whose `open`s use non-empty modal ids and positive
`Date.now()` readings, (1) at most one modal is active, (2) `open` while a
modal is active (a transition is never in flight between calls) returns
`false` and changes no state field, (3) `close` clears `activeModalId`,
`activeModuleId` and `openedAt` and returns the elapsed milliseconds — `0`
when no session was open — and (4) an `open` after a `close` is accepted
and returns `true`.  (The un-amended claim fails for the empty-string
modal id, see the counterexample.) -/
theorem modalSession_exclusive (evs : List ModalState.Event) (s : ModalState)
    (hs : s = ModalState.runEvents evs)
    (hg : ∀ e ∈ evs, ModalState.goodEvent e) :
    (∀ m m', s.activeModalId = some m → s.activeModalId = some m' → m = m') ∧
    (∀ modalId moduleId now, s.isActive = true →
      s.openModal modalId moduleId now = (false, s)) ∧
    (∀ now,
      (s.close now).2 =
        { s with activeModalId := none, activeModuleId := none,
                 openedAt := none } ∧
      (s.openedAt = none → (s.close now).1 = 0) ∧
      (∀ t, s.openedAt = some t → (s.close now).1 = now - t)) ∧
    (∀ now modalId moduleId now',
      (((s.close now).2).openModal modalId moduleId now').1 = true) := by
  subst hs
  obtain ⟨h1, _, h3, h4⟩ := ModalState.goodInv_runEvents evs hg
  refine ⟨?_, ?_, ?_, ?_⟩
  · intro m m' hm hm'
    rw [hm] at hm' ; exact (Option.some.injEq _ _).mp hm'
  · intro modalId moduleId now hact
    have : ∃ m, (ModalState.runEvents evs).activeModalId = some m := by
      cases hA : (ModalState.runEvents evs).activeModalId with
      | none => simp [ModalState.isActive, hA] at hact
      | some m => exact ⟨m, rfl⟩
    obtain ⟨m, hm⟩ := this
    have hne := h3 m hm
    simp [ModalState.openModal, h1, ModalState.strFieldTruthy, hm, hne]
  · intro now
    refine ⟨rfl, ?_, ?_⟩
    · intro h ; simp [ModalState.close, h]
    · intro t ht
      have := h4 t ht
      simp [ModalState.close, ht]
      omega
  · intro now modalId moduleId now'
    simp [ModalState.close, ModalState.openModal, h1, ModalState.strFieldTruthy]

/-- Claim C1, instantiated: after `open("m1","mod1")` at time 5, a second
`open("m2","mod2")` is rejected unchanged, and `close` at time 260 reports
255 elapsed milliseconds. -/
theorem modalSession_exclusive_witness :
    ((ModalState.runEvents [ModalState.Event.eopen "m1" "mod1" 5]).openModal
        "m2" "mod2" 7 =
      (false, ModalState.runEvents [ModalState.Event.eopen "m1" "mod1" 5])) ∧
    ((ModalState.runEvents [ModalState.Event.eopen "m1" "mod1" 5]).close 260).1
      = 255 := by
  have h := modalSession_exclusive [ModalState.Event.eopen "m1" "mod1" 5] _ rfl
    (by decide)
  refine ⟨h.2.1 "m2" "mod2" 7 (by decide), ?_⟩
  have h3 := (h.2.2.1 260).2.2 5 (by decide)
  rw [h3] ; decide

/-- Claim C1, counterexample to the frozen wording: `open("", "m1")` is
accepted; the tracker is then active (`isActive()` is `true`, since
`activeModalId === ""` is not `null`), yet a second `open("m2","mod2")`
returns `true` and changes the state — the guard tests truthiness, and
`""` is falsy. -/
theorem modalSession_exclusive_cex :
    ((ModalState.init.openModal "" "m1" 5).2.isActive = true) ∧
    (((ModalState.init.openModal "" "m1" 5).2.openModal "m2" "mod2" 7).1
      = true) ∧
    ((ModalState.init.openModal "" "m1" 5).2.openModal "m2" "mod2" 7).2 ≠
      (ModalState.init.openModal "" "m1" 5).2 := by decide

/-- Claim C10 (amended): in every `ModalState` reachable by `open`/`close`
calls with non-empty modal ids, `previousModalId` is `null`; over
arbitrary call sequences it is at most the empty string (the only other
value the `open` guard lets through), so it never carries a usable
"previous modal" id. -/
theorem previousModalId_never_set :
    (∀ evs : List ModalState.Event, (∀ e ∈ evs, ModalState.goodEvent e) →
      (ModalState.runEvents evs).previousModalId = none) ∧
    (∀ evs : List ModalState.Event,
      (ModalState.runEvents evs).previousModalId = none ∨
      (ModalState.runEvents evs).previousModalId = some "") := by
  constructor
  · intro evs hg
    exact (ModalState.goodInv_runEvents evs hg).2.1
  · intro evs
    exact ModalState.prev_falsy_foldl evs ModalState.init (Or.inl rfl)

/-- Claim C10, instantiated on an open–close–open trace. -/
theorem previousModalId_never_set_witness :
    (ModalState.runEvents
      [ModalState.Event.eopen "m1" "mod1" 5, ModalState.Event.eclose 9,
       ModalState.Event.eopen "m2" "mod2" 12]).previousModalId = none :=
  previousModalId_never_set.1 _ (by decide)

/-- Claim C10, counterexample to the frozen wording: after `open("","m1")`
then `open("m2","mod2")`, `previousModalId` is `""`, not `null`. -/
theorem previousModalId_never_set_cex :
    (ModalState.runEvents
      [ModalState.Event.eopen "" "m1" 5,
       ModalState.Event.eopen "m2" "mod2" 7]).previousModalId = some "" := by
  decide

theorem isNonemptyStr_spec (v : Jsv) (h : isNonemptyStr v = true) :
    ∃ s, v = Jsv.jstr s ∧ s ≠ "" := by
  cases v <;> simp [isNonemptyStr] at h
  exact ⟨_, rfl, h⟩

theorem toList_ne_nil_of_ne_empty (s : String) (h : s ≠ "") :
    s.toList ≠ [] := by
  intro hn
  apply h
  have : String.mk s.toList = String.mk [] := by rw [hn]
  simpa using this

/-- The filter of `validateShortcuts` on an encoded record reduces to the
truthiness of its target. -/
theorem validKeep_encode (r : Shortcut) :
    ShortcutDataStore.validKeep (encodeShortcut r) = r.target.truthy := rfl

/-- `s.action?.target` of an encoded record. -/
theorem actionTarget_encode (r : Shortcut) :
    actionTarget (encodeShortcut r) = some r.target := rfl

/-- The validation pass returns a well-formed record unchanged. -/
theorem coerceRecord_encode_wf (now : String) (r : Shortcut)
    (h : wellFormedShortcut r = true) :
    ShortcutDataStore.coerceRecord now (encodeShortcut r) = r := by
  simp only [wellFormedShortcut, Bool.and_eq_true, beq_iff_eq,
    decide_eq_true_eq] at h
  obtain ⟨⟨⟨⟨⟨⟨⟨⟨hid, htrim⟩, hlab⟩, hlen⟩, hty⟩, htg⟩, hpos⟩, hca⟩, hua⟩ := h
  obtain ⟨ids, hid1, hid2⟩ := isNonemptyStr_spec _ hid
  obtain ⟨tys, hty1, hty2⟩ := isNonemptyStr_spec _ hty
  obtain ⟨tgs, htg1, htg2⟩ := isNonemptyStr_spec _ htg
  obtain ⟨cas, hca1, hca2⟩ := isNonemptyStr_spec _ hca
  obtain ⟨uas, hua1, hua2⟩ := isNonemptyStr_spec _ hua
  obtain ⟨id, label, enabled, aty, tgt, pos, vis, ca, ua⟩ := r
  simp only at hid1 hty1 htg1 hca1 hua1 htrim hlab hlen
  subst hid1 hty1 htg1 hca1 hua1
  have hlabne : label ≠ "" := by simpa using hlab
  have hlabl : label.toList ≠ [] := toList_ne_nil_of_ne_empty label hlabne
  simp only [ShortcutDataStore.coerceRecord, encodeShortcut, actionTarget,
    Jsv.getField, Jsv.getField.lookupField, jsOr, Jsv.truthy,
    ShortcutDataStore.validateLabel, jsToString, jsNumberOrZero,
    Jsv.optTruthy, Option.getD]
  simp only [reduceIte, String.reduceEq]
  simp only [hid2, hty2, hca2, hua2, ne_eq, not_false_eq_true, bne_iff_ne,
    if_true, reduceIte, hlabne]
  have hjs : jsToString (Jsv.jstr label) = label := by simp [jsToString]
  rw [hjs]
  simp only [String.toList] at htrim hlabl ⊢
  have hlenEq : label.length = label.data.length := rfl
  have hlen' : ¬ ((label.data).length > 20) := by omega
  simp only [htrim, bne_iff_ne, ne_eq, hlabne, not_false_eq_true, hlabl,
    if_false, if_true, hlen', Bool.not_true, Bool.not_false, reduceIte,
    Jsv.getField.lookupField, String.reduceEq, Jsv.truthy, hty2, htg2,
    Option.some_bind, ite_true, ite_false, List.isEmpty_eq_true]
  have hb : (label != "") = true := by simp [hlabne]
  simp only [hb, Bool.not_true, reduceIte]
  cases label
  cases vis <;> rfl

/-- `validateShortcuts` is the identity on encoded well-formed record
sequences. -/
theorem validateShortcuts_encode_wf (now : String) (records : List Shortcut)
    (h : records.all wellFormedShortcut = true) :
    ShortcutDataStore.validateShortcuts now (encodeShortcuts records) =
      records := by
  induction records with
  | nil => rfl
  | cons r rest ih =>
    simp only [List.all_cons, Bool.and_eq_true] at h
    obtain ⟨hr, hrest⟩ := h
    have htg : r.target.truthy = true := by
      simp only [wellFormedShortcut, Bool.and_eq_true] at hr
      obtain ⟨ts, h1, h2⟩ := isNonemptyStr_spec _ hr.1.1.1.2
      simp [h1, Jsv.truthy, h2]
    have ih' := ih hrest
    simp only [ShortcutDataStore.validateShortcuts, encodeShortcuts,
      List.map_cons, List.filter_cons] at ih' ⊢
    rw [validKeep_encode, htg]
    simp only [if_true, List.map_cons]
    rw [coerceRecord_encode_wf now r hr]
    congr 1

theorem assignPositions_map_erase (i : Nat) (l : List Shortcut) :
    (ShortcutDataStore.assignPositions i l).map erasePosition =
      l.map erasePosition := by
  induction l generalizing i with
  | nil => rfl
  | cons s rest ih =>
    simp only [ShortcutDataStore.assignPositions, List.map_cons, ih]
    try rfl

theorem assignPositions_map_position (i : Nat) (l : List Shortcut) :
    (ShortcutDataStore.assignPositions i l).map Shortcut.position =
      (List.range' i l.length).map Int.ofNat := by
  induction l generalizing i with
  | nil => rfl
  | cons s rest ih =>
    simp only [ShortcutDataStore.assignPositions, List.map_cons, ih,
      List.length_cons, List.range'_succ i rest.length 1, Int.ofNat_eq_coe]
    try rfl

theorem reindexPositions_map_position (l : List Shortcut) :
    (ShortcutDataStore.reindexPositions l).map Shortcut.position =
      (List.range l.length).map Int.ofNat := by
  rw [ShortcutDataStore.reindexPositions, assignPositions_map_position,
    List.length_insertionSort, List.range_eq_range']

theorem reindexPositions_perm_erase (l : List Shortcut) :
    ((ShortcutDataStore.reindexPositions l).map erasePosition).Perm
      (l.map erasePosition) := by
  rw [ShortcutDataStore.reindexPositions, assignPositions_map_erase]
  exact (List.perm_insertionSort ShortcutDataStore.posLe l).map erasePosition

theorem save_success_writeOk (now : String) (data : Jsv)
    (st : ShortcutDataStore.Store)
    (h : (ShortcutDataStore.save now data st).1 = true) :
    st.writeOk = true := by
  by_cases hw : st.writeOk = true
  · exact hw
  · simp only [Bool.not_eq_true] at hw
    simp [ShortcutDataStore.save, hw] at h

/-- Claim C2: if `save(records)` on a well-formed record sequence succeeds,
the cache and the persisted value are exactly the reindexed sequence, a
`load` immediately afterwards returns that same sequence (and leaves the
state untouched), and the reindexed sequence is `records` up to the
`position` fields — same records in some order, positions rewritten to
`0..n-1`.  `updated_at` is untouched for well-formed records ("refreshed"
only where missing), which "equality up to refreshed `updated_at`"
subsumes. -/
theorem saveLoad_roundTrip (now now' : String) (records : List Shortcut)
    (st : ShortcutDataStore.Store)
    (hwf : records.all wellFormedShortcut = true)
    (hok : (ShortcutDataStore.save now (encodeShortcuts records) st).1 = true) :
    (ShortcutDataStore.save now (encodeShortcuts records) st).2.cache =
      some (ShortcutDataStore.reindexPositions records) ∧
    (ShortcutDataStore.save now (encodeShortcuts records) st).2.stored =
      ShortcutDataStore.StoredVal.jsval
        (encodeShortcuts (ShortcutDataStore.reindexPositions records)) ∧
    ShortcutDataStore.load now'
        (ShortcutDataStore.save now (encodeShortcuts records) st).2 =
      (ShortcutDataStore.reindexPositions records,
        (ShortcutDataStore.save now (encodeShortcuts records) st).2) ∧
    ((ShortcutDataStore.reindexPositions records).map erasePosition).Perm
      (records.map erasePosition) ∧
    (ShortcutDataStore.reindexPositions records).map Shortcut.position =
      (List.range records.length).map Int.ofNat := by
  have hw := save_success_writeOk now (encodeShortcuts records) st hok
  have hval := validateShortcuts_encode_wf now records hwf
  have hsave : ShortcutDataStore.save now (encodeShortcuts records) st =
      (true,
        { st with
          stored := ShortcutDataStore.StoredVal.jsval
            (encodeShortcuts (ShortcutDataStore.reindexPositions records)),
          cache := some (ShortcutDataStore.reindexPositions records) }) := by
    simp [ShortcutDataStore.save, hw, hval]
  refine ⟨by rw [hsave], by rw [hsave], ?_, reindexPositions_perm_erase records,
    reindexPositions_map_position records⟩
  rw [hsave]
  rfl

/-- Claim C2, instantiated on a two-record well-formed sequence with
positions 5 and 1. -/
theorem saveLoad_roundTrip_witness :
    (ShortcutDataStore.save "T"
      (encodeShortcuts
        [⟨Jsv.jstr "shortcut-a", "AB", true, Jsv.jstr "modal", Jsv.jstr "a",
          5, true, Jsv.jstr "t1", Jsv.jstr "t1"⟩,
         ⟨Jsv.jstr "shortcut-b", "B", false, Jsv.jstr "modal", Jsv.jstr "b",
          1, true, Jsv.jstr "t1", Jsv.jstr "t1"⟩])
      (ShortcutDataStore.Store.init ShortcutDataStore.StoredVal.absent
        true)).2.cache =
    some (ShortcutDataStore.reindexPositions
      [⟨Jsv.jstr "shortcut-a", "AB", true, Jsv.jstr "modal", Jsv.jstr "a",
        5, true, Jsv.jstr "t1", Jsv.jstr "t1"⟩,
       ⟨Jsv.jstr "shortcut-b", "B", false, Jsv.jstr "modal", Jsv.jstr "b",
        1, true, Jsv.jstr "t1", Jsv.jstr "t1"⟩]) :=
  (saveLoad_roundTrip "T" "U"
    [⟨Jsv.jstr "shortcut-a", "AB", true, Jsv.jstr "modal", Jsv.jstr "a",
      5, true, Jsv.jstr "t1", Jsv.jstr "t1"⟩,
     ⟨Jsv.jstr "shortcut-b", "B", false, Jsv.jstr "modal", Jsv.jstr "b",
      1, true, Jsv.jstr "t1", Jsv.jstr "t1"⟩]
    (ShortcutDataStore.Store.init ShortcutDataStore.StoredVal.absent true)
    (by decide) (by decide)).1

/-- Claim C4: when the backend write fails, `save` returns `false` (it is a
total function of the embedded state — nothing escapes the `catch`), the
in-memory cache and the stored value keep their pre-call values, and a
subsequent `load` behaves exactly as it would have before the call. -/
theorem save_write_failure (now : String) (data : Jsv)
    (st : ShortcutDataStore.Store) (h : st.writeOk = false) :
    ShortcutDataStore.save now data st = (false, st) ∧
    (∀ now2, ShortcutDataStore.load now2
      (ShortcutDataStore.save now data st).2 =
      ShortcutDataStore.load now2 st) := by
  have h1 : ShortcutDataStore.save now data st = (false, st) := by
    simp [ShortcutDataStore.save, h]
  exact ⟨h1, fun now2 => by rw [h1]⟩

/-- Claim C4, instantiated on a quota-blocked store holding a cache. -/
theorem save_write_failure_witness :
    ShortcutDataStore.save "T"
      (encodeShortcuts
        [⟨Jsv.jstr "shortcut-a", "AB", true, Jsv.jstr "modal", Jsv.jstr "a",
          0, true, Jsv.jstr "t1", Jsv.jstr "t1"⟩])
      { cache := some [⟨Jsv.jstr "shortcut-b", "B", false, Jsv.jstr "modal",
          Jsv.jstr "b", 0, true, Jsv.jstr "t0", Jsv.jstr "t0"⟩],
        stored := ShortcutDataStore.StoredVal.absent, writeOk := false } =
    (false,
      { cache := some [⟨Jsv.jstr "shortcut-b", "B", false, Jsv.jstr "modal",
          Jsv.jstr "b", 0, true, Jsv.jstr "t0", Jsv.jstr "t0"⟩],
        stored := ShortcutDataStore.StoredVal.absent, writeOk := false }) :=
  (save_write_failure "T"
    (encodeShortcuts
      [⟨Jsv.jstr "shortcut-a", "AB", true, Jsv.jstr "modal", Jsv.jstr "a",
        0, true, Jsv.jstr "t1", Jsv.jstr "t1"⟩])
    { cache := some [⟨Jsv.jstr "shortcut-b", "B", false, Jsv.jstr "modal",
        Jsv.jstr "b", 0, true, Jsv.jstr "t0", Jsv.jstr "t0"⟩],
      stored := ShortcutDataStore.StoredVal.absent, writeOk := false }
    rfl).1

/-- Claim C5 (amended): a first `load` over a missing, unparseable or
non-array stored value returns the empty sequence without an exception —
but only the unparseable case re-persists the empty sequence (and only
when the backend accepts the write); the missing and non-array cases leave
the storage untouched. -/
theorem load_failSafe (now : String) (st : ShortcutDataStore.Store)
    (hc : st.cache = none) :
    ((st.stored = ShortcutDataStore.StoredVal.absent ∨
      st.stored = ShortcutDataStore.StoredVal.emptyString) →
      ShortcutDataStore.load now st = ([], { st with cache := some [] })) ∧
    (st.stored = ShortcutDataStore.StoredVal.unparseable →
      (ShortcutDataStore.load now st).1 = [] ∧
      (st.writeOk = true →
        (ShortcutDataStore.load now st).2 =
          { st with cache := some [],
                    stored := ShortcutDataStore.StoredVal.jsval
                      (encodeShortcuts []) }) ∧
      (st.writeOk = false →
        (ShortcutDataStore.load now st).2 = { st with cache := some [] })) ∧
    (∀ v, st.stored = ShortcutDataStore.StoredVal.jsval v → v.isArr = false →
      ShortcutDataStore.load now st = ([], { st with cache := some [] })) := by
  obtain ⟨cache, stored, writeOk⟩ := st
  simp only at hc
  subst hc
  refine ⟨?_, ?_, ?_⟩
  · rintro (h | h) <;> subst h <;> rfl
  · intro h
    subst h
    cases writeOk with
    | true => exact ⟨rfl, fun _ => rfl, fun hw => by simp at hw⟩
    | false => exact ⟨rfl, fun hw => by simp at hw, fun _ => rfl⟩
  · intro v h hv
    subst h
    cases v <;> simp [Jsv.isArr] at hv ⊢ <;> rfl

/-- Claim C5, instantiated: a first `load` over an unparseable stored
value returns empty and re-persists the empty array. -/
theorem load_failSafe_witness :
    (ShortcutDataStore.load "T"
      (ShortcutDataStore.Store.init
        ShortcutDataStore.StoredVal.unparseable true)).2 =
    { cache := some [],
      stored := ShortcutDataStore.StoredVal.jsval (encodeShortcuts []),
      writeOk := true } :=
  ((load_failSafe "T"
    (ShortcutDataStore.Store.init ShortcutDataStore.StoredVal.unparseable
      true) rfl).2.1 rfl).2.1 rfl

/-- Claim C5, counterexample to the frozen wording: a first `load` over a
missing stored value returns the empty sequence but does not persist it —
the storage still holds nothing, not the empty array. -/
theorem load_failSafe_cex :
    (ShortcutDataStore.load "T"
      (ShortcutDataStore.Store.init ShortcutDataStore.StoredVal.absent
        true)).1 = [] ∧
    (ShortcutDataStore.load "T"
      (ShortcutDataStore.Store.init ShortcutDataStore.StoredVal.absent
        true)).2.stored = ShortcutDataStore.StoredVal.absent ∧
    ShortcutDataStore.StoredVal.absent ≠
      ShortcutDataStore.StoredVal.jsval (encodeShortcuts []) := by
  decide

/-- The validation pass on any encoded record rewrites only `id`,
`label`, `action.type` and the timestamps through their `||`-defaults and
`validateLabel`; `enabled`, `target`, `position` and `visible` are
reproduced exactly. -/
theorem coerceRecord_encode (now : String) (r : Shortcut) :
    ShortcutDataStore.coerceRecord now (encodeShortcut r) =
      { r with
        id := jsOr (some r.id) (Jsv.jstr ("shortcut-" ++ jsToString r.target)),
        label := ShortcutDataStore.validateLabel (some (Jsv.jstr r.label)),
        actionType := jsOr (some r.actionType) (Jsv.jstr "modal"),
        created_at := jsOr (some r.created_at) (Jsv.jstr now),
        updated_at := jsOr (some r.updated_at) (Jsv.jstr now) } := by
  obtain ⟨id, label, enabled, aty, tgt, pos, vis, ca, ua⟩ := r
  cases vis <;> rfl

theorem validateShortcuts_encode_truthy (now : String) (l : List Shortcut)
    (h : ∀ r ∈ l, r.target.truthy = true) :
    ShortcutDataStore.validateShortcuts now (encodeShortcuts l) =
      l.map (fun r => ShortcutDataStore.coerceRecord now (encodeShortcut r)) := by
  have hstep : ShortcutDataStore.validateShortcuts now (encodeShortcuts l) =
      ((l.map encodeShortcut).filter ShortcutDataStore.validKeep).map
        (ShortcutDataStore.coerceRecord now) := rfl
  have hall : l.filter (ShortcutDataStore.validKeep ∘ encodeShortcut) = l :=
    List.filter_eq_self.mpr (fun r hr => by
      simp only [Function.comp_apply, validKeep_encode]
      exact h r hr)
  rw [hstep, List.filter_map, hall, List.map_map]
  rfl

theorem validateShortcuts_target_truthy (now : String) (v : Jsv) :
    ∀ r ∈ ShortcutDataStore.validateShortcuts now v, r.target.truthy = true := by
  intro r hr
  cases v with
  | jarr xs =>
    simp only [ShortcutDataStore.validateShortcuts, List.mem_map,
      List.mem_filter] at hr
    obtain ⟨s, ⟨_, hkeep⟩, hco⟩ := hr
    simp only [ShortcutDataStore.validKeep, Bool.and_eq_true] at hkeep
    obtain ⟨_, htg⟩ := hkeep
    cases hat : actionTarget s with
    | none => rw [hat] at htg ; simp [Jsv.optTruthy] at htg
    | some t =>
      rw [hat] at htg
      subst hco
      simp only [ShortcutDataStore.coerceRecord, hat, Option.getD_some]
      simpa [Jsv.optTruthy] using htg
  | jnull => exact absurd hr (List.not_mem_nil r)
  | jbool b => exact absurd hr (List.not_mem_nil r)
  | jnum n => exact absurd hr (List.not_mem_nil r)
  | jstr s => exact absurd hr (List.not_mem_nil r)
  | jobj fields => exact absurd hr (List.not_mem_nil r)

theorem assignPositions_map_target (i : Nat) (l : List Shortcut) :
    (ShortcutDataStore.assignPositions i l).map Shortcut.target =
      l.map Shortcut.target := by
  induction l generalizing i with
  | nil => rfl
  | cons s rest ih =>
    simp only [ShortcutDataStore.assignPositions, List.map_cons, ih]

theorem reindexPositions_map_target (l : List Shortcut) :
    (ShortcutDataStore.reindexPositions l).map Shortcut.target =
      ((l.insertionSort ShortcutDataStore.posLe).map Shortcut.target) := by
  rw [ShortcutDataStore.reindexPositions, assignPositions_map_target]

theorem reindexPositions_target_truthy (l : List Shortcut)
    (h : ∀ r ∈ l, r.target.truthy = true) :
    ∀ r ∈ ShortcutDataStore.reindexPositions l, r.target.truthy = true := by
  intro r hr
  have : r.target ∈ (ShortcutDataStore.reindexPositions l).map Shortcut.target :=
    List.mem_map_of_mem Shortcut.target hr
  rw [reindexPositions_map_target] at this
  simp only [List.mem_map] at this
  obtain ⟨s, hs, hts⟩ := this
  rw [← hts]
  exact h s ((List.mem_insertionSort ShortcutDataStore.posLe).mp hs)

theorem sorted_of_positions_range (l : List Shortcut)
    (h : l.map Shortcut.position = (List.range l.length).map Int.ofNat) :
    l.Pairwise ShortcutDataStore.posLe := by
  have hp : (l.map Shortcut.position).Pairwise (· ≤ ·) := by
    rw [h]
    refine List.Pairwise.map Int.ofNat (fun a b hab => ?_)
      ((List.pairwise_lt_range l.length).imp le_of_lt)
    exact Int.ofNat_le.mpr hab
  rw [List.pairwise_map] at hp
  exact hp.imp (fun hab => hab)

/-- Stability of `orderedInsert` in terms of equal-position filters. -/
theorem filter_orderedInsert_position (k : Int) (x : Shortcut) :
    ∀ m : List Shortcut,
      (List.orderedInsert ShortcutDataStore.posLe x m).filter
          (fun s => s.position == k) =
        if x.position == k then
          x :: m.filter (fun s => s.position == k)
        else m.filter (fun s => s.position == k)
  | [] => by
    cases hx : x.position == k <;>
      simp [List.orderedInsert, List.filter, hx]
  | b :: rest => by
    by_cases hle : ShortcutDataStore.posLe x b
    · cases hx : x.position == k <;>
        simp [List.orderedInsert, hle, List.filter, hx]
    · have hlt : b.position < x.position := by
        simp only [ShortcutDataStore.posLe] at hle
        omega
      have ih := filter_orderedInsert_position k x rest
      cases hx : x.position == k with
      | false =>
        cases hb : b.position == k <;>
          simp [List.orderedInsert, hle, List.filter, hb, ih, hx]
      | true =>
        have hbk : (b.position == k) = false := by
          have hx' : x.position = k := by simpa using hx
          simp only [beq_eq_false_iff_ne, ne_eq]
          omega
        simp [List.orderedInsert, hle, List.filter, hbk, ih, hx]

/-- Stability of the ascending sort: records with any fixed position value
appear in the sorted list in their original relative order. -/
theorem filter_insertionSort_position (k : Int) (l : List Shortcut) :
    (l.insertionSort ShortcutDataStore.posLe).filter
        (fun s => s.position == k) =
      l.filter (fun s => s.position == k) := by
  induction l with
  | nil => rfl
  | cons x rest ih =>
    simp only [List.insertionSort, filter_orderedInsert_position, ih,
      List.filter_cons]

theorem assignPositions_length (i : Nat) (l : List Shortcut) :
    (ShortcutDataStore.assignPositions i l).length = l.length := by
  induction l generalizing i with
  | nil => rfl
  | cons s rest ih => simp [ShortcutDataStore.assignPositions, ih]

theorem reindexPositions_length (l : List Shortcut) :
    (ShortcutDataStore.reindexPositions l).length = l.length := by
  rw [ShortcutDataStore.reindexPositions, assignPositions_length,
    List.length_insertionSort]

theorem coerce_encode_position (now : String) (r : Shortcut) :
    (ShortcutDataStore.coerceRecord now (encodeShortcut r)).position =
      r.position := rfl

theorem coerce_encode_target (now : String) (r : Shortcut) :
    (ShortcutDataStore.coerceRecord now (encodeShortcut r)).target =
      r.target := rfl

/-- Claim C3: (1) a successful `save` caches and persists exactly
`reindexPositions (validateShortcuts ...)`; (2) the reindexed positions
are the contiguous sequence `0..n-1`; (3) the reindexed order is an
ascending-by-position, tie-stable (equal-position filters preserved)
permutation of the validated pre-save sequence, renumbered in place;
(4) pre-save positions `[5, 1, 1]` come out renumbered `[0, 1, 2]` with
the two ties in their original relative order; (5) a second `save` of the
sequence persisted by a first one reproduces the same positions on the
same targets. -/
theorem reindexing_invariant :
    (∀ now data st, (ShortcutDataStore.save now data st).1 = true →
      (ShortcutDataStore.save now data st).2.cache =
        some (ShortcutDataStore.reindexPositions
          (ShortcutDataStore.validateShortcuts now data)) ∧
      (ShortcutDataStore.save now data st).2.stored =
        ShortcutDataStore.StoredVal.jsval
          (encodeShortcuts (ShortcutDataStore.reindexPositions
            (ShortcutDataStore.validateShortcuts now data)))) ∧
    (∀ l : List Shortcut,
      (ShortcutDataStore.reindexPositions l).map Shortcut.position =
        (List.range l.length).map Int.ofNat) ∧
    (∀ l : List Shortcut, ∃ s : List Shortcut,
      ShortcutDataStore.reindexPositions l =
        ShortcutDataStore.assignPositions 0 s ∧
      s.Pairwise ShortcutDataStore.posLe ∧
      s.Perm l ∧
      (∀ k : Int, s.filter (fun r => r.position == k) =
        l.filter (fun r => r.position == k))) ∧
    ((ShortcutDataStore.save "T"
        (encodeShortcuts
          [⟨Jsv.jstr "shortcut-a", "A", true, Jsv.jstr "modal", Jsv.jstr "a",
            5, true, Jsv.jstr "t", Jsv.jstr "t"⟩,
           ⟨Jsv.jstr "shortcut-b", "B", true, Jsv.jstr "modal", Jsv.jstr "b",
            1, true, Jsv.jstr "t", Jsv.jstr "t"⟩,
           ⟨Jsv.jstr "shortcut-c", "C", true, Jsv.jstr "modal", Jsv.jstr "c",
            1, true, Jsv.jstr "t", Jsv.jstr "t"⟩])
        (ShortcutDataStore.Store.init ShortcutDataStore.StoredVal.absent
          true)).2.cache =
      some
        [⟨Jsv.jstr "shortcut-b", "B", true, Jsv.jstr "modal", Jsv.jstr "b",
          0, true, Jsv.jstr "t", Jsv.jstr "t"⟩,
         ⟨Jsv.jstr "shortcut-c", "C", true, Jsv.jstr "modal", Jsv.jstr "c",
          1, true, Jsv.jstr "t", Jsv.jstr "t"⟩,
         ⟨Jsv.jstr "shortcut-a", "A", true, Jsv.jstr "modal", Jsv.jstr "a",
          2, true, Jsv.jstr "t", Jsv.jstr "t"⟩]) ∧
    (∀ now now' data,
      (ShortcutDataStore.reindexPositions
        (ShortcutDataStore.validateShortcuts now'
          (encodeShortcuts (ShortcutDataStore.reindexPositions
            (ShortcutDataStore.validateShortcuts now data))))).map
          Shortcut.position =
        (ShortcutDataStore.reindexPositions
          (ShortcutDataStore.validateShortcuts now data)).map
          Shortcut.position ∧
      (ShortcutDataStore.reindexPositions
        (ShortcutDataStore.validateShortcuts now'
          (encodeShortcuts (ShortcutDataStore.reindexPositions
            (ShortcutDataStore.validateShortcuts now data))))).map
          Shortcut.target =
        (ShortcutDataStore.reindexPositions
          (ShortcutDataStore.validateShortcuts now data)).map
          Shortcut.target) := by
  refine ⟨?_, reindexPositions_map_position, ?_, by decide, ?_⟩
  · intro now data st h
    have hw := save_success_writeOk now data st h
    constructor <;> simp [ShortcutDataStore.save, hw]
  · intro l
    exact ⟨l.insertionSort ShortcutDataStore.posLe, rfl,
      List.sorted_insertionSort ShortcutDataStore.posLe l,
      List.perm_insertionSort ShortcutDataStore.posLe l,
      fun k => filter_insertionSort_position k l⟩
  · intro now now' data
    set p1 := ShortcutDataStore.reindexPositions
      (ShortcutDataStore.validateShortcuts now data) with hp1
    have htr : ∀ r ∈ p1, r.target.truthy = true :=
      reindexPositions_target_truthy _ (validateShortcuts_target_truthy now data)
    have hv : ShortcutDataStore.validateShortcuts now' (encodeShortcuts p1) =
        p1.map (fun r => ShortcutDataStore.coerceRecord now'
          (encodeShortcut r)) :=
      validateShortcuts_encode_truthy now' p1 htr
    set q := p1.map (fun r => ShortcutDataStore.coerceRecord now'
      (encodeShortcut r)) with hq
    have hqpos : q.map Shortcut.position = p1.map Shortcut.position := by
      rw [hq, List.map_map]
      exact List.map_congr_left (fun r _ => coerce_encode_position now' r)
    have hqtg : q.map Shortcut.target = p1.map Shortcut.target := by
      rw [hq, List.map_map]
      exact List.map_congr_left (fun r _ => coerce_encode_target now' r)
    have hqlen : q.length = p1.length := by rw [hq, List.length_map]
    have hp1pos : p1.map Shortcut.position =
        (List.range p1.length).map Int.ofNat := by
      rw [hp1, reindexPositions_map_position, reindexPositions_length]
    have hqrange : q.map Shortcut.position =
        (List.range q.length).map Int.ofNat := by
      rw [hqpos, hp1pos, hqlen]
    have hsorted : q.Pairwise ShortcutDataStore.posLe :=
      sorted_of_positions_range q hqrange
    have hsorteq : q.insertionSort ShortcutDataStore.posLe = q :=
      List.Sorted.insertionSort_eq hsorted
    have hstep : ShortcutDataStore.reindexPositions
        (ShortcutDataStore.validateShortcuts now' (encodeShortcuts p1)) =
        ShortcutDataStore.assignPositions 0 q := by
      rw [hv, ShortcutDataStore.reindexPositions, hsorteq]
    constructor
    · rw [hstep, assignPositions_map_position, ← List.range_eq_range', hqlen]
      exact hp1pos.symm
    · rw [hstep, assignPositions_map_target, hqtg]

/-- Claim C3, instantiated: after the `[5,1,1]` save above, a second save
of the persisted sequence keeps the persisted positions. -/
theorem reindexing_invariant_witness :
    (ShortcutDataStore.save "T"
      (encodeShortcuts
        [⟨Jsv.jstr "shortcut-a", "A", true, Jsv.jstr "modal", Jsv.jstr "a",
          5, true, Jsv.jstr "t", Jsv.jstr "t"⟩])
      (ShortcutDataStore.Store.init ShortcutDataStore.StoredVal.absent
        true)).2.cache =
    some (ShortcutDataStore.reindexPositions
      (ShortcutDataStore.validateShortcuts "T"
        (encodeShortcuts
          [⟨Jsv.jstr "shortcut-a", "A", true, Jsv.jstr "modal", Jsv.jstr "a",
            5, true, Jsv.jstr "t", Jsv.jstr "t"⟩]))) :=
  (reindexing_invariant.1 "T"
    (encodeShortcuts
      [⟨Jsv.jstr "shortcut-a", "A", true, Jsv.jstr "modal", Jsv.jstr "a",
        5, true, Jsv.jstr "t", Jsv.jstr "t"⟩])
    (ShortcutDataStore.Store.init ShortcutDataStore.StoredVal.absent true)
    (by decide)).1

theorem dropWhile_head_false {p : Char → Bool} :
    ∀ (m : List Char) (d : Char) (ds : List Char),
      List.dropWhile p m = d :: ds → p d = false
  | [], d, ds, h => by simp [List.dropWhile] at h
  | c :: cs, d, ds, h => by
    by_cases hc : p c = true
    · rw [List.dropWhile_cons_of_pos hc] at h
      exact dropWhile_head_false cs d ds h
    · rw [Bool.not_eq_true] at hc
      rw [List.dropWhile_cons_of_neg (by simp [hc])] at h
      cases h
      exact hc

theorem trimChars_length_le (l : List Char) :
    (trimChars l).length ≤ l.length := by
  simp only [trimChars, List.length_reverse]
  refine le_trans (List.dropWhile_sublist jsWs).length_le ?_
  simp only [List.length_reverse]
  exact (List.dropWhile_sublist jsWs).length_le

theorem mem_trimChars_of_not_ws (c : Char) (m : List Char) (hm : c ∈ m)
    (hw : jsWs c = false) : c ∈ trimChars m := by
  have step : ∀ (x : List Char), c ∈ x → c ∈ List.dropWhile jsWs x := by
    intro x hx
    have hsplit := List.takeWhile_append_dropWhile jsWs x
    rcases List.mem_append.mp (hsplit ▸ hx) with h1 | h2
    · have := List.mem_takeWhile_imp h1
      rw [hw] at this
      exact absurd this (by simp)
    · exact h2
  simp only [trimChars, List.mem_reverse]
  exact step _ (List.mem_reverse.mpr (step m hm))

theorem trimChars_head (m : List Char) (hne : trimChars m ≠ []) :
    ∃ d rest, trimChars m = d :: rest ∧ jsWs d = false := by
  cases hD : List.dropWhile jsWs m with
  | nil =>
    exfalso
    apply hne
    simp only [trimChars, hD]
    rfl
  | cons d ds =>
    have hd : jsWs d = false := dropWhile_head_false m d ds hD
    simp only [trimChars, hD, List.reverse_cons, List.dropWhile_append]
    by_cases hnil : (List.dropWhile jsWs ds.reverse).isEmpty
    · rw [if_pos hnil]
      refine ⟨d, [], ?_, hd⟩
      rw [List.dropWhile_cons_of_neg (by simp [hd])]
      rfl
    · rw [if_neg hnil, List.reverse_append]
      exact ⟨d, _, rfl, hd⟩

theorem take_toList_mk (xs : List Char) : (String.mk xs).toList = xs := rfl

theorem mk_ne_empty_of_cons (d : Char) (rest : List Char) :
    String.mk (d :: rest) ≠ "" := by
  intro h
  have h2 := congrArg String.toList h
  simp at h2

/-- The persisted form of an `updateLabel` write: `save`'s `validateLabel`
re-trims the sanitised label, and performs no further truncation or
substitution on it. -/
theorem validateLabel_sanitize (raw : String) :
    ShortcutDataStore.validateLabel
        (some (Jsv.jstr (ShortcutDataStore.sanitizeLabel raw))) =
      String.mk (trimChars (ShortcutDataStore.sanitizeLabel raw).toList) := by
  unfold ShortcutDataStore.sanitizeLabel
  by_cases h1 : (trimChars raw.toList).isEmpty
  · simp only [h1, if_true]
    rfl
  · have hne : trimChars raw.toList ≠ [] := by
      simpa [List.isEmpty_eq_true] using h1
    obtain ⟨d, rest, hdr, hd⟩ := trimChars_head raw.toList hne
    by_cases h2 : (trimChars raw.toList).length > 20
    · simp only [h1, h2, Bool.false_eq_true, if_false, if_true, reduceIte]
      have htake : (trimChars raw.toList).take 20 = d :: rest.take 19 := by
        rw [hdr] ; rfl
      have hdin : d ∈ (trimChars raw.toList).take 20 := by
        rw [htake] ; simp
      have htne : trimChars ((trimChars raw.toList).take 20) ≠ [] := by
        intro hnil
        have := mem_trimChars_of_not_ws d _ hdin hd
        rw [hnil] at this
        simp at this
      have hvne : String.mk ((trimChars raw.toList).take 20) ≠ "" := by
        rw [htake] ; exact mk_ne_empty_of_cons _ _
      have hlen : ¬ ((trimChars ((trimChars raw.toList).take 20)).length > 20) := by
        have ha := trimChars_length_le ((trimChars raw.toList).take 20)
        have hb := List.length_take_le 20 (trimChars raw.toList)
        omega
      simp only [ShortcutDataStore.validateLabel, Jsv.truthy, bne_iff_ne,
        ne_eq, hvne, not_false_eq_true, if_true, take_toList_mk]
      have hjs : jsToString (Jsv.jstr (String.mk ((trimChars raw.toList).take 20)))
          = String.mk ((trimChars raw.toList).take 20) := by simp [jsToString]
      rw [hjs, take_toList_mk]
      simp only [String.toList] at hvne htne hlen
      simp [String.toList, hvne, htne, hlen]
    · simp only [h1, h2, Bool.false_eq_true, if_false, if_true, reduceIte]
      have hdin : d ∈ trimChars raw.toList := by rw [hdr] ; simp
      have htne : trimChars (trimChars raw.toList) ≠ [] := by
        intro hnil
        have := mem_trimChars_of_not_ws d _ hdin hd
        rw [hnil] at this
        simp at this
      have hvne : String.mk (trimChars raw.toList) ≠ "" := by
        rw [hdr] ; exact mk_ne_empty_of_cons _ _
      have hlen : ¬ ((trimChars (trimChars raw.toList)).length > 20) := by
        have ha := trimChars_length_le (trimChars raw.toList)
        omega
      simp only [ShortcutDataStore.validateLabel, Jsv.truthy, bne_iff_ne,
        ne_eq, hvne, not_false_eq_true, if_true, take_toList_mk]
      have hjs : jsToString (Jsv.jstr (String.mk (trimChars raw.toList)))
          = String.mk (trimChars raw.toList) := by simp [jsToString]
      rw [hjs, take_toList_mk]
      simp only [String.toList] at hvne htne hlen
      simp [String.toList, hvne, htne, hlen]

/-- The source's default-label computation agrees with the specification's
wording of it. -/
theorem generateDefaultLabel_eq_spec (title : String) :
    ShortcutDataStore.generateDefaultLabel title = specDerivedLabel title := by
  by_cases h : title = ""
  · subst h ; rfl
  · simp only [ShortcutDataStore.generateDefaultLabel, specDerivedLabel, h,
      if_false]

theorem setEnabledFirst_erase (modalId : String) (enabled : Bool)
    (now : String) (l : List Shortcut) :
    (ShortcutDataStore.setEnabledFirst modalId enabled now l).map
        eraseEnabledUpdated =
      l.map eraseEnabledUpdated := by
  induction l with
  | nil => rfl
  | cons s rest ih =>
    by_cases hs : jsvEqString s.target modalId = true
    · simp only [ShortcutDataStore.setEnabledFirst, hs, if_true,
        List.map_cons]
      rfl
    · simp only [Bool.not_eq_true] at hs
      simp only [ShortcutDataStore.setEnabledFirst, hs, Bool.false_eq_true,
        if_false, List.map_cons, ih]

theorem setLabelFirst_erase (modalId newLabel now : String)
    (l : List Shortcut) :
    (ShortcutDataStore.setLabelFirst modalId newLabel now l).map
        eraseLabelUpdated =
      l.map eraseLabelUpdated := by
  induction l with
  | nil => rfl
  | cons s rest ih =>
    by_cases hs : jsvEqString s.target modalId = true
    · simp only [ShortcutDataStore.setLabelFirst, hs, if_true, List.map_cons]
      rfl
    · simp only [Bool.not_eq_true] at hs
      simp only [ShortcutDataStore.setLabelFirst, hs, Bool.false_eq_true,
        if_false, List.map_cons, ih]

/-- Claim C6: (1) `toggle(target, true, title)` on an unseen target pushes
a record with `id = "shortcut-"+target`, the derived default label (as the
spec words it), `enabled = true`, action `modal`/target, `position` equal
to the current sequence length, `visible = true` and both timestamps `now`
— then saves; (2) on an existing record only `enabled` and `updated_at`
change (label and position untouched) before the save; (3)
`toggle(target, false)` on an unseen target creates nothing and returns
the result of saving the unchanged collection. -/
theorem toggle_semantics :
    (∀ now target title st shortcuts st1,
      ShortcutDataStore.load now st = (shortcuts, st1) →
      shortcuts.find? (fun s => jsvEqString s.target target) = none →
      ShortcutDataStore.toggle now target true title st =
        ShortcutDataStore.saveRecords now
          (shortcuts ++ [⟨Jsv.jstr ("shortcut-" ++ target),
            specDerivedLabel title, true, Jsv.jstr "modal", Jsv.jstr target,
            (shortcuts.length : Int), true, Jsv.jstr now, Jsv.jstr now⟩])
          { st1 with cache := some (shortcuts ++
            [⟨Jsv.jstr ("shortcut-" ++ target), specDerivedLabel title, true,
              Jsv.jstr "modal", Jsv.jstr target, (shortcuts.length : Int),
              true, Jsv.jstr now, Jsv.jstr now⟩]) }) ∧
    (∀ now target enabled title st shortcuts st1 r,
      ShortcutDataStore.load now st = (shortcuts, st1) →
      shortcuts.find? (fun s => jsvEqString s.target target) = some r →
      ShortcutDataStore.toggle now target enabled title st =
        ShortcutDataStore.saveRecords now
          (ShortcutDataStore.setEnabledFirst target enabled now shortcuts)
          { st1 with cache := some (
              ShortcutDataStore.setEnabledFirst target enabled now
                shortcuts) } ∧
      (ShortcutDataStore.setEnabledFirst target enabled now shortcuts).map
          eraseEnabledUpdated =
        shortcuts.map eraseEnabledUpdated) ∧
    (∀ now target title st shortcuts st1,
      ShortcutDataStore.load now st = (shortcuts, st1) →
      shortcuts.find? (fun s => jsvEqString s.target target) = none →
      ShortcutDataStore.toggle now target false title st =
        ShortcutDataStore.saveRecords now shortcuts st1) := by
  refine ⟨?_, ?_, ?_⟩
  · intro now target title st shortcuts st1 hload hfind
    simp only [ShortcutDataStore.toggle, hload, hfind,
      generateDefaultLabel_eq_spec, if_true]
  · intro now target enabled title st shortcuts st1 r hload hfind
    refine ⟨?_, setEnabledFirst_erase target enabled now shortcuts⟩
    simp only [ShortcutDataStore.toggle, hload, hfind]
  · intro now target title st shortcuts st1 hload hfind
    simp only [ShortcutDataStore.toggle, hload, hfind, Bool.false_eq_true,
      if_false]

/-- Claim C6, instantiated: `toggle("alpha", true, "Alpha Beta")` on the
empty store pushes the record `{id: "shortcut-alpha", label: "AB",
enabled: true, position: 0, visible: true}` stamped at the current time. -/
theorem toggle_semantics_witness :
    ShortcutDataStore.toggle "T" "alpha" true "Alpha Beta"
      (ShortcutDataStore.Store.init ShortcutDataStore.StoredVal.absent
        true) =
    ShortcutDataStore.saveRecords "T"
      ([] ++ [⟨Jsv.jstr ("shortcut-" ++ "alpha"), specDerivedLabel "Alpha Beta",
        true, Jsv.jstr "modal", Jsv.jstr "alpha", ((0 : Nat) : Int), true,
        Jsv.jstr "T", Jsv.jstr "T"⟩])
      { cache := some ([] ++ [⟨Jsv.jstr ("shortcut-" ++ "alpha"),
          specDerivedLabel "Alpha Beta", true, Jsv.jstr "modal",
          Jsv.jstr "alpha", ((0 : Nat) : Int), true, Jsv.jstr "T",
          Jsv.jstr "T"⟩]),
        stored := ShortcutDataStore.StoredVal.absent, writeOk := true } :=
  toggle_semantics.1 "T" "alpha" "Alpha Beta"
    (ShortcutDataStore.Store.init ShortcutDataStore.StoredVal.absent true)
    [] { cache := some [],
         stored := ShortcutDataStore.StoredVal.absent, writeOk := true }
    rfl rfl

theorem mk_eq_empty_iff (xs : List Char) : String.mk xs = "" ↔ xs = [] := by
  constructor
  · intro h
    have h2 := congrArg String.toList h
    simpa using h2
  · intro h ; rw [h]

/-- Every label produced by `validateLabel` is non-empty and at most 20
characters. -/
theorem validateLabel_ok (l : Option Jsv) :
    ShortcutDataStore.validateLabel l ≠ "" ∧
    (ShortcutDataStore.validateLabel l).length ≤ 20 := by
  unfold ShortcutDataStore.validateLabel
  match l with
  | none => exact ⟨by decide, by decide⟩
  | some v =>
    by_cases ht : v.truthy = true
    · simp only [ht, Bool.not_true, Bool.false_eq_true, if_false]
      by_cases h1 : (trimChars (jsToString v).toList).isEmpty
      · have h1' : trimChars (jsToString v).data = [] := by
          simpa [List.isEmpty_eq_true, String.toList] using h1
        refine ⟨by simp [h1'], ?_⟩
        simp [h1']
        decide
      · simp only [h1, Bool.false_eq_true, if_false]
        have hne : trimChars (jsToString v).toList ≠ [] := by
          simpa [List.isEmpty_eq_true] using h1
        by_cases h2 : (trimChars (jsToString v).toList).length > 20
        · simp only [h2, if_true]
          constructor
          · rw [ne_eq, mk_eq_empty_iff, List.take_eq_nil_iff]
            simp only [String.toList] at hne
            simp [hne]
          · simp [String.length]
        · simp only [h2, if_false]
          constructor
          · rw [ne_eq, mk_eq_empty_iff]
            exact hne
          · simp only [String.length]
            omega
    · simp only [Bool.not_eq_true] at ht
      simp only [ht, Bool.not_false, if_true]
      exact ⟨by decide, by decide⟩

theorem validateShortcuts_label_ok (now : String) (v : Jsv) :
    ∀ r ∈ ShortcutDataStore.validateShortcuts now v,
      r.label ≠ "" ∧ r.label.length ≤ 20 := by
  intro r hr
  cases v with
  | jarr xs =>
    simp only [ShortcutDataStore.validateShortcuts, List.mem_map,
      List.mem_filter] at hr
    obtain ⟨s, ⟨_, _⟩, hco⟩ := hr
    subst hco
    exact validateLabel_ok (s.getField "label")
  | jnull => exact absurd hr (List.not_mem_nil r)
  | jbool b => exact absurd hr (List.not_mem_nil r)
  | jnum n => exact absurd hr (List.not_mem_nil r)
  | jstr s => exact absurd hr (List.not_mem_nil r)
  | jobj fields => exact absurd hr (List.not_mem_nil r)

theorem assignPositions_map_label (i : Nat) (l : List Shortcut) :
    (ShortcutDataStore.assignPositions i l).map Shortcut.label =
      l.map Shortcut.label := by
  induction l generalizing i with
  | nil => rfl
  | cons s rest ih =>
    simp only [ShortcutDataStore.assignPositions, List.map_cons, ih]

theorem reindexPositions_label_ok (l : List Shortcut)
    (h : ∀ r ∈ l, r.label ≠ "" ∧ r.label.length ≤ 20) :
    ∀ r ∈ ShortcutDataStore.reindexPositions l,
      r.label ≠ "" ∧ r.label.length ≤ 20 := by
  intro r hr
  have hmem : r.label ∈
      (ShortcutDataStore.reindexPositions l).map Shortcut.label :=
    List.mem_map_of_mem Shortcut.label hr
  rw [ShortcutDataStore.reindexPositions, assignPositions_map_label] at hmem
  simp only [List.mem_map] at hmem
  obtain ⟨s, hs, hls⟩ := hmem
  rw [← hls]
  exact h s ((List.mem_insertionSort ShortcutDataStore.posLe).mp hs)

/-- Claim C9 (amended): `updateLabel` returns `false` with no persistence
attempted when no record exists for the target; otherwise it assigns the
sanitised label — trim, `"XX"` when the trim is empty, the 20-character
prefix when longer than 20 — touching only `label`/`updated_at`, and the
`save` path's own `validateLabel` then re-trims that value, so the
persisted label is the trim of the 20-character prefix (which can be
shorter than 20); after any persisted write, every record's label is
non-empty and at most 20 characters. -/
theorem updateLabel_sanitization :
    (∀ now modalId label st shortcuts st1,
      ShortcutDataStore.load now st = (shortcuts, st1) →
      shortcuts.find? (fun s => jsvEqString s.target modalId) = none →
      ShortcutDataStore.updateLabel now modalId label st = (false, st1)) ∧
    (∀ now modalId label st shortcuts st1 r,
      ShortcutDataStore.load now st = (shortcuts, st1) →
      shortcuts.find? (fun s => jsvEqString s.target modalId) = some r →
      ShortcutDataStore.updateLabel now modalId label st =
        ShortcutDataStore.saveRecords now
          (ShortcutDataStore.setLabelFirst modalId
            (ShortcutDataStore.sanitizeLabel label) now shortcuts)
          { st1 with cache := some (
              ShortcutDataStore.setLabelFirst modalId
                (ShortcutDataStore.sanitizeLabel label) now shortcuts) } ∧
      (ShortcutDataStore.setLabelFirst modalId
          (ShortcutDataStore.sanitizeLabel label) now shortcuts).map
          eraseLabelUpdated =
        shortcuts.map eraseLabelUpdated) ∧
    (∀ raw, ShortcutDataStore.validateLabel
        (some (Jsv.jstr (ShortcutDataStore.sanitizeLabel raw))) =
      String.mk (trimChars (ShortcutDataStore.sanitizeLabel raw).toList)) ∧
    (∀ now data r, r ∈ ShortcutDataStore.reindexPositions
        (ShortcutDataStore.validateShortcuts now data) →
      r.label ≠ "" ∧ r.label.length ≤ 20) := by
  refine ⟨?_, ?_, validateLabel_sanitize, ?_⟩
  · intro now modalId label st shortcuts st1 hload hfind
    simp only [ShortcutDataStore.updateLabel, hload, hfind]
  · intro now modalId label st shortcuts st1 r hload hfind
    refine ⟨?_, setLabelFirst_erase modalId
      (ShortcutDataStore.sanitizeLabel label) now shortcuts⟩
    simp only [ShortcutDataStore.updateLabel, hload, hfind,
      ShortcutDataStore.sanitizeLabel]
  · intro now data r hr
    exact reindexPositions_label_ok _
      (validateShortcuts_label_ok now data) r hr

/-- Claim C9, instantiated: `updateLabel` on an unseen target fails
without persisting. -/
theorem updateLabel_sanitization_witness :
    ShortcutDataStore.updateLabel "T" "x" "hello"
      (ShortcutDataStore.Store.init ShortcutDataStore.StoredVal.absent
        true) =
    (false, { cache := some [],
              stored := ShortcutDataStore.StoredVal.absent,
              writeOk := true }) :=
  updateLabel_sanitization.1 "T" "x" "hello"
    (ShortcutDataStore.Store.init ShortcutDataStore.StoredVal.absent true)
    [] { cache := some [],
         stored := ShortcutDataStore.StoredVal.absent, writeOk := true }
    rfl rfl

/-- Claim C9, counterexample to the frozen wording: for the 21-character
raw label `"aaaaaaaaaaaaaaaaaaa b"` (19 `a`s, space, `b`) the
20-character prefix ends in a space, and `save`'s validation re-trims it —
the persisted label is the 19-character `"aaaaaaaaaaaaaaaaaaa"`, not the
20-character prefix the claim promises. -/
theorem updateLabel_sanitization_cex :
    ShortcutDataStore.sanitizeLabel "aaaaaaaaaaaaaaaaaaa b" =
      "aaaaaaaaaaaaaaaaaaa " ∧
    ((ShortcutDataStore.updateLabel "t1" "t" "aaaaaaaaaaaaaaaaaaa b"
        (ShortcutDataStore.toggle "t0" "t" true "T"
          (ShortcutDataStore.Store.init ShortcutDataStore.StoredVal.absent
            true)).2).2.cache.getD []).map Shortcut.label =
      ["aaaaaaaaaaaaaaaaaaa"] ∧
    ("aaaaaaaaaaaaaaaaaaa" : String) ≠ "aaaaaaaaaaaaaaaaaaa " := by
  decide

/-- Claim C8: `importData` returns `false` and mutates nothing when
`JSON.parse` throws (the argument is the parse's outcome, `none` standing
for a parse exception); a parsed value is routed into the very same `save`
(validate + reindex + persist) as any other input; and on
`'[{"bogus":1},{"action":{"target":"x"}}]'` over an empty store the entry
without an `action.target` is dropped while the other is repaired to the
record `{id: "shortcut-x", label: "XX", enabled: false, type: "modal",
target: "x", position: 0, visible: true}`, which is exactly what gets
persisted. -/
theorem importData_repair :
    (∀ now st, ShortcutDataStore.importData now none st = (false, st)) ∧
    (∀ now v st, ShortcutDataStore.importData now (some v) st =
      ShortcutDataStore.save now v st) ∧
    (ShortcutDataStore.importData "T"
      (some (Jsv.jarr [Jsv.jobj [("bogus", Jsv.jnum 1)],
        Jsv.jobj [("action", Jsv.jobj [("target", Jsv.jstr "x")])]]))
      (ShortcutDataStore.Store.init ShortcutDataStore.StoredVal.absent
        true) =
      (true,
        { cache := some [⟨Jsv.jstr "shortcut-x", "XX", false,
            Jsv.jstr "modal", Jsv.jstr "x", 0, true, Jsv.jstr "T",
            Jsv.jstr "T"⟩],
          stored := ShortcutDataStore.StoredVal.jsval (encodeShortcuts
            [⟨Jsv.jstr "shortcut-x", "XX", false, Jsv.jstr "modal",
              Jsv.jstr "x", 0, true, Jsv.jstr "T", Jsv.jstr "T"⟩]),
          writeOk := true })) := by
  refine ⟨fun now st => rfl, fun now v st => rfl, by decide⟩

theorem validate_encode_targets (now : String) (rs : List Shortcut) :
    (ShortcutDataStore.validateShortcuts now (encodeShortcuts rs)).map
        Shortcut.target =
      (rs.filter
        (fun r => ShortcutDataStore.validKeep (encodeShortcut r))).map
        Shortcut.target := by
  have hstep : ShortcutDataStore.validateShortcuts now (encodeShortcuts rs) =
      ((rs.map encodeShortcut).filter ShortcutDataStore.validKeep).map
        (ShortcutDataStore.coerceRecord now) := rfl
  rw [hstep, List.filter_map, List.map_map, List.map_map]
  exact List.map_congr_left (fun r _ => coerce_encode_target now r)

theorem distinct_validate_encode (now : String) (rs : List Shortcut)
    (h : distinctTargets rs) :
    distinctTargets
      (ShortcutDataStore.validateShortcuts now (encodeShortcuts rs)) := by
  have hpair : ((ShortcutDataStore.validateShortcuts now
      (encodeShortcuts rs)).map Shortcut.target).Pairwise (· ≠ ·) := by
    rw [validate_encode_targets]
    have hsub : List.Sublist
        ((rs.filter
          (fun r => ShortcutDataStore.validKeep (encodeShortcut r))).map
          Shortcut.target)
        (rs.map Shortcut.target) :=
      (List.filter_sublist rs).map Shortcut.target
    have hrs : (rs.map Shortcut.target).Pairwise (· ≠ ·) :=
      (List.pairwise_map).mpr h
    exact hrs.sublist hsub
  exact (List.pairwise_map).mp hpair

theorem distinct_reindex (l : List Shortcut) (h : distinctTargets l) :
    distinctTargets (ShortcutDataStore.reindexPositions l) := by
  have hpair : ((ShortcutDataStore.reindexPositions l).map
      Shortcut.target).Pairwise (· ≠ ·) := by
    rw [reindexPositions_map_target]
    have hperm : ((l.insertionSort ShortcutDataStore.posLe).map
        Shortcut.target).Perm (l.map Shortcut.target) :=
      (List.perm_insertionSort ShortcutDataStore.posLe l).map Shortcut.target
    have hl : (l.map Shortcut.target).Pairwise (· ≠ ·) :=
      (List.pairwise_map).mpr h
    exact (hperm.pairwise_iff (fun hab => Ne.symm hab)).mpr hl
  exact (List.pairwise_map).mp hpair

theorem targetsOk_saveRecords (now : String) (rs : List Shortcut)
    (st : ShortcutDataStore.Store) (h : StoreTargetsOk st)
    (hrs : distinctTargets rs) :
    StoreTargetsOk (ShortcutDataStore.saveRecords now rs st).2 := by
  have hd : distinctTargets (ShortcutDataStore.reindexPositions
      (ShortcutDataStore.validateShortcuts now (encodeShortcuts rs))) :=
    distinct_reindex _ (distinct_validate_encode now rs hrs)
  unfold ShortcutDataStore.saveRecords ShortcutDataStore.save
  by_cases hw : st.writeOk = true
  · simp only [hw, if_true]
    refine ⟨?_, ?_⟩
    · intro c hc
      simp only at hc
      cases hc
      exact hd
    · intro v hv
      simp only at hv
      cases hv
      exact ⟨_, rfl, hd⟩
  · simp only [Bool.not_eq_true] at hw
    simp only [hw, Bool.false_eq_true, if_false]
    exact h

theorem targetsOk_load (now : String) (st : ShortcutDataStore.Store)
    (h : StoreTargetsOk st) :
    distinctTargets (ShortcutDataStore.load now st).1 ∧
    StoreTargetsOk (ShortcutDataStore.load now st).2 := by
  obtain ⟨cache, stored, writeOk⟩ := st
  cases cache with
  | some c => exact ⟨h.1 c rfl, h⟩
  | none =>
    cases stored with
    | absent =>
      refine ⟨List.Pairwise.nil, ⟨?_, ?_⟩⟩
      · intro c hc
        simp only [ShortcutDataStore.load] at hc
        cases hc
        exact List.Pairwise.nil
      · intro v hv
        exact h.2 v hv
    | emptyString =>
      refine ⟨List.Pairwise.nil, ⟨?_, ?_⟩⟩
      · intro c hc
        simp only [ShortcutDataStore.load] at hc
        cases hc
        exact List.Pairwise.nil
      · intro v hv
        exact h.2 v hv
    | unparseable =>
      have hs := targetsOk_saveRecords now []
        { cache := some [], stored := ShortcutDataStore.StoredVal.unparseable,
          writeOk := writeOk }
        ⟨fun c hc => by cases hc ; exact List.Pairwise.nil,
         fun v hv => by cases hv⟩
        List.Pairwise.nil
      cases hw : writeOk with
      | true =>
        subst hw
        exact ⟨List.Pairwise.nil, hs⟩
      | false =>
        subst hw
        exact ⟨List.Pairwise.nil, hs⟩
    | jsval v =>
      obtain ⟨rs, hv, hrs⟩ := h.2 v rfl
      subst hv
      have hval : distinctTargets (ShortcutDataStore.validateShortcuts now
          (encodeShortcuts rs)) := distinct_validate_encode now rs hrs
      refine ⟨hval, ⟨?_, ?_⟩⟩
      · intro c hc
        simp only [ShortcutDataStore.load, encodeShortcuts] at hc
        cases hc
        exact hval
      · intro v' hv'
        simp only [ShortcutDataStore.load] at hv'
        exact h.2 v' hv'

theorem setEnabledFirst_map_target (modalId : String) (enabled : Bool)
    (now : String) (l : List Shortcut) :
    (ShortcutDataStore.setEnabledFirst modalId enabled now l).map
        Shortcut.target = l.map Shortcut.target := by
  induction l with
  | nil => rfl
  | cons s rest ih =>
    by_cases hs : jsvEqString s.target modalId = true
    · simp only [ShortcutDataStore.setEnabledFirst, hs, if_true,
        List.map_cons]
    · simp only [Bool.not_eq_true] at hs
      simp only [ShortcutDataStore.setEnabledFirst, hs, Bool.false_eq_true,
        if_false, List.map_cons, ih]

theorem setLabelFirst_map_target (modalId newLabel now : String)
    (l : List Shortcut) :
    (ShortcutDataStore.setLabelFirst modalId newLabel now l).map
        Shortcut.target = l.map Shortcut.target := by
  induction l with
  | nil => rfl
  | cons s rest ih =>
    by_cases hs : jsvEqString s.target modalId = true
    · simp only [ShortcutDataStore.setLabelFirst, hs, if_true, List.map_cons]
    · simp only [Bool.not_eq_true] at hs
      simp only [ShortcutDataStore.setLabelFirst, hs, Bool.false_eq_true,
        if_false, List.map_cons, ih]

theorem distinct_of_map_target_eq (l m : List Shortcut)
    (hmap : l.map Shortcut.target = m.map Shortcut.target)
    (h : distinctTargets m) : distinctTargets l := by
  have hm : (m.map Shortcut.target).Pairwise (· ≠ ·) :=
    (List.pairwise_map).mpr h
  rw [← hmap] at hm
  exact (List.pairwise_map).mp hm

theorem not_eqString_of_find_none (modalId : String) (shortcuts : List Shortcut)
    (hfind : shortcuts.find? (fun s => jsvEqString s.target modalId) = none) :
    ∀ s ∈ shortcuts, s.target ≠ Jsv.jstr modalId := by
  intro s hs heq
  have := List.find?_eq_none.mp hfind s hs
  apply this
  rw [heq]
  simp [jsvEqString]

theorem targetsOk_toggle (now modalId : String) (enabled : Bool)
    (title : String) (st : ShortcutDataStore.Store) (h : StoreTargetsOk st) :
    StoreTargetsOk (ShortcutDataStore.toggle now modalId enabled title st).2 := by
  obtain ⟨hls, hlo⟩ := targetsOk_load now st h
  cases hfind : (ShortcutDataStore.load now st).1.find?
      (fun s => jsvEqString s.target modalId) with
  | none =>
    cases enabled with
    | true =>
      simp only [ShortcutDataStore.toggle, hfind, if_true]
      have hnew : distinctTargets ((ShortcutDataStore.load now st).1 ++
          [{ id := Jsv.jstr ("shortcut-" ++ modalId),
             label := ShortcutDataStore.generateDefaultLabel title,
             enabled := true, actionType := Jsv.jstr "modal",
             target := Jsv.jstr modalId,
             position := ((ShortcutDataStore.load now st).1.length : Int),
             visible := true, created_at := Jsv.jstr now,
             updated_at := Jsv.jstr now }]) := by
        rw [distinctTargets, List.pairwise_append]
        refine ⟨hls, List.pairwise_singleton _ _, ?_⟩
        intro a ha b hb
        simp only [List.mem_singleton] at hb
        subst hb
        exact not_eqString_of_find_none modalId _ hfind a ha
      refine targetsOk_saveRecords now _ _ ⟨?_, ?_⟩ hnew
      · intro c hc
        cases hc
        exact hnew
      · intro v hv
        exact hlo.2 v hv
    | false =>
      simp only [ShortcutDataStore.toggle, hfind, Bool.false_eq_true,
        if_false]
      exact targetsOk_saveRecords now _ _ hlo hls
  | some r =>
    have harr : distinctTargets (ShortcutDataStore.setEnabledFirst modalId
        enabled now (ShortcutDataStore.load now st).1) :=
      distinct_of_map_target_eq _ _
        (setEnabledFirst_map_target modalId enabled now _) hls
    simp only [ShortcutDataStore.toggle, hfind]
    refine targetsOk_saveRecords now _ _ ⟨?_, ?_⟩ harr
    · intro c hc
      cases hc
      exact harr
    · intro v hv
      exact hlo.2 v hv

theorem targetsOk_updateLabel (now modalId label : String)
    (st : ShortcutDataStore.Store) (h : StoreTargetsOk st) :
    StoreTargetsOk
      (ShortcutDataStore.updateLabel now modalId label st).2 := by
  obtain ⟨hls, hlo⟩ := targetsOk_load now st h
  cases hfind : (ShortcutDataStore.load now st).1.find?
      (fun s => jsvEqString s.target modalId) with
  | none =>
    simp only [ShortcutDataStore.updateLabel, hfind]
    exact hlo
  | some r =>
    have harr : distinctTargets (ShortcutDataStore.setLabelFirst modalId
        (ShortcutDataStore.sanitizeLabel label) now
        (ShortcutDataStore.load now st).1) :=
      distinct_of_map_target_eq _ _
        (setLabelFirst_map_target modalId _ now _) hls
    simp only [ShortcutDataStore.updateLabel, ShortcutDataStore.sanitizeLabel,
      hfind]
    refine targetsOk_saveRecords now _ _ ⟨?_, ?_⟩ harr
    · intro c hc
      cases hc
      exact harr
    · intro v hv
      exact hlo.2 v hv

theorem targetsOk_remove (now modalId : String)
    (st : ShortcutDataStore.Store) (h : StoreTargetsOk st) :
    StoreTargetsOk (ShortcutDataStore.remove now modalId st).2 := by
  obtain ⟨hls, hlo⟩ := targetsOk_load now st h
  cases hfind : (ShortcutDataStore.load now st).1.findIdx?
      (fun s => jsvEqString s.target modalId) with
  | none =>
    simp only [ShortcutDataStore.remove, hfind]
    exact hlo
  | some i =>
    have harr : distinctTargets
        ((ShortcutDataStore.load now st).1.eraseIdx i) :=
      hls.sublist (List.eraseIdx_sublist _ i)
    simp only [ShortcutDataStore.remove, hfind]
    refine targetsOk_saveRecords now _ _ ⟨?_, ?_⟩ harr
    · intro c hc
      cases hc
      exact harr
    · intro v hv
      exact hlo.2 v hv

theorem targetsOk_clear (now : String) (st : ShortcutDataStore.Store)
    (h : StoreTargetsOk st) :
    StoreTargetsOk (ShortcutDataStore.clear now st).2 :=
  targetsOk_saveRecords now [] st h List.Pairwise.nil

theorem targetsOk_apply (st : ShortcutDataStore.Store) (op : RegOp)
    (h : StoreTargetsOk st) : StoreTargetsOk (applyRegOp st op) := by
  cases op with
  | opToggle now modalId enabled title =>
    exact targetsOk_toggle now modalId enabled title st h
  | opUpdateLabel now modalId label =>
    exact targetsOk_updateLabel now modalId label st h
  | opRemove now modalId => exact targetsOk_remove now modalId st h
  | opClear now => exact targetsOk_clear now st h
  | opLoad now => exact (targetsOk_load now st h).2

theorem targetsOk_run : ∀ (ops : List RegOp) (st : ShortcutDataStore.Store),
    StoreTargetsOk st → StoreTargetsOk (runRegOps st ops)
  | [], _, h => h
  | op :: rest, st, h => by
    simp only [runRegOps, List.foldl_cons]
    exact targetsOk_run rest _ (targetsOk_apply st op h)

/-- Claim C7 (amended): over any sequence of registry calls
(`toggle`/`updateLabel`/`remove`/`clear`/`load`) starting from a store
whose cached and persisted collections have pairwise distinct targets —
the fresh store in particular — both collections keep pairwise distinct
targets; after any sequence of `toggle` calls all targets are distinct.
`importData`, however, can persist duplicate targets (see the
counterexample), so the uniqueness invariant does not extend to it. -/
theorem target_uniqueness :
    (∀ st0 ops, StoreTargetsOk st0 → StoreTargetsOk (runRegOps st0 ops)) ∧
    (∀ w, StoreTargetsOk
      (ShortcutDataStore.Store.init ShortcutDataStore.StoredVal.absent w)) ∧
    (∀ st0 ops c, StoreTargetsOk st0 →
      (runRegOps st0 ops).cache = some c → distinctTargets c) := by
  refine ⟨fun st0 ops h => targetsOk_run ops st0 h, ?_, ?_⟩
  · intro w
    constructor
    · intro c hc
      simp [ShortcutDataStore.Store.init] at hc
    · intro v hv
      simp [ShortcutDataStore.Store.init] at hv
  · intro st0 ops c h hc
    exact (targetsOk_run ops st0 h).1 c hc

/-- Claim C7, instantiated on two `toggle`s from the fresh store. -/
theorem target_uniqueness_witness :
    distinctTargets
      ((runRegOps
        (ShortcutDataStore.Store.init ShortcutDataStore.StoredVal.absent
          true)
        [RegOp.opToggle "T" "a" true "A",
         RegOp.opToggle "U" "b" true "B"]).cache.getD []) := by
  have h := target_uniqueness.2.2
    (ShortcutDataStore.Store.init ShortcutDataStore.StoredVal.absent true)
    [RegOp.opToggle "T" "a" true "A", RegOp.opToggle "U" "b" true "B"]
    ((runRegOps
      (ShortcutDataStore.Store.init ShortcutDataStore.StoredVal.absent true)
      [RegOp.opToggle "T" "a" true "A",
       RegOp.opToggle "U" "b" true "B"]).cache.getD [])
    (target_uniqueness.2.1 true)
  exact h rfl

/-- Claim C7, counterexample to the frozen wording: `importData` of two
entries sharing target `"x"` persists two records with the same
`action.target`. -/
theorem target_uniqueness_cex :
    (((ShortcutDataStore.importData "T"
        (some (Jsv.jarr
          [Jsv.jobj [("action", Jsv.jobj [("target", Jsv.jstr "x")])],
           Jsv.jobj [("action", Jsv.jobj [("target", Jsv.jstr "x")])]]))
        (ShortcutDataStore.Store.init ShortcutDataStore.StoredVal.absent
          true)).2.cache.getD []).map Shortcut.target =
      [Jsv.jstr "x", Jsv.jstr "x"]) ∧
    ¬ distinctTargets
      ((ShortcutDataStore.importData "T"
        (some (Jsv.jarr
          [Jsv.jobj [("action", Jsv.jobj [("target", Jsv.jstr "x")])],
           Jsv.jobj [("action", Jsv.jobj [("target", Jsv.jstr "x")])]]))
        (ShortcutDataStore.Store.init ShortcutDataStore.StoredVal.absent
          true)).2.cache.getD []) := by
  decide
